import Mathlib

/-!
# IPMI response validation and format decoding

A shallow embedding of `ipmi/formats.go` (the response validator and the six
format decoders) and of the decode step of `nodeManagerPlugin/plugin.go`.

Conventions of the embedding

* a payload byte is a `Fin 256`; a `uint16` value is a natural number, and the
  `uint16` arithmetic of the source is written with explicit `% 65536`;
* a Go `map[string]uint16` is an association list with distinct keys, built
  only by `MetricMap.store` (the assignment `m[k] = v`);
* a Go `error` result is an `Option`: `none` is `nil`;
* a function that can stop with the runtime error "index out of range" returns
  an `Option`: `none` is that runtime error.
-/

namespace Ipmi

/-! ## Data model -/

/-- One byte of a response payload (`byte`). -/
abbrev Byte := Fin 256

/-- Modelled from the spec: the declaration of `IpmiResponse` is not among the
sources. The fields are the ones the sources read and write: `Data` (indexed and
measured by the decoders), `IsValid` (compared with `1`, set to `0`), `Source`
and `Index` (set by `RunParallelRequests`). -/
structure IpmiResponse where
  /-- Payload bytes. -/
  Data : List Byte
  /-- Communication flag; `1` is the succeeded value. -/
  IsValid : Nat
  /-- Host the response came from. -/
  Source : String
  /-- Position in the batch that produced the response. -/
  Index : Int
deriving DecidableEq, Repr

/-- Conversion `uint16(x)`. -/
def uint16 (n : Nat) : Nat := n % 65536

/-- Addition of two `uint16` values. -/
def add16 (x y : Nat) : Nat := (x + y) % 65536

/-- Multiplication of two `uint16` values. -/
def mul16 (x y : Nat) : Nat := (x * y) % 65536

/-- The expression `uint16(lo) + uint16(hi) * 256` of the decoders. -/
def word16 (lo hi : Byte) : Nat := add16 (uint16 lo.val) (mul16 (uint16 hi.val) 256)

/-- A `map[string]uint16`. -/
abbrev MetricMap := List (String × Nat)

/-- The assignment `m[k] = v`: overwrite the entry of `k`, or add one. -/
def MetricMap.store : MetricMap → String → Nat → MetricMap
  | [], k, v => [(k, v)]
  | (k', v') :: rest, k, v =>
    if k' = k then (k, v) :: rest else (k', v') :: MetricMap.store rest k v

/-- The lookup `v, ok := m[k]`. -/
def MetricMap.find : MetricMap → String → Option Nat
  | [], _ => none
  | (k', v') :: rest, k => if k' = k then some v' else MetricMap.find rest k

/-- The keys of a map. -/
def MetricMap.keys (m : MetricMap) : List String := m.map Prod.fst

/-! ## Validator (`formats.go`, `GenericValidator.Validate`) -/

/-- The three errors `Validate` can return. -/
inductive ValidateError where
  /-- The error `fmt.Errorf("Unexpected error code : %d", response.Data[0])`. -/
  | unexpectedCode (code : Byte)
  /-- The error `errors.New("Zero length response")`. -/
  | zeroLength
  /-- The error `errors.New("Resposne is not valid")`. -/
  | notValid
deriving DecidableEq, Repr

/-- The message of an error. -/
def ValidateError.Error : ValidateError → String
  | .unexpectedCode code => "Unexpected error code : " ++ toString code.val
  | .zeroLength => "Zero length response"
  | .notValid => "Resposne is not valid"

/-- The method `GenericValidator.Validate`; `none` is the `nil` error. -/
def GenericValidator.Validate (response : IpmiResponse) : Option ValidateError :=
  if response.IsValid = 1 then
    if response.Data.length > 0 then
      match response.Data[0]? with
      | some code => if code = 0 then none else some (.unexpectedCode code)
      | none => some .zeroLength
    else
      some .zeroLength
  else
    some .notValid

/-! ## Decoders (`formats.go`) -/

/-- The loop `for metricName, startIndex := range names` shared, word for word,
by the CUPS, NodeManager and PMBus decoders. -/
def rangeNames (response : IpmiResponse) : List (String × Nat) → MetricMap → Option MetricMap
  | [], m => some m
  | (metricName, startIndex) :: rest, m =>
    if response.IsValid = 1 then
      match response.Data[startIndex]?, response.Data[startIndex + 1]? with
      | some lo, some hi => rangeNames response rest (MetricMap.store m metricName (word16 lo hi))
      | _, _ => none
    else
      rangeNames response rest (MetricMap.store m metricName 0xFFFF)

/-- The method `ParserCUPS.GetMetrics`. -/
def ParserCUPS.GetMetrics : List String := ["cpu_cstate", "memory_bandwith", "io_bandwith"]

/-- The table `names` of `ParserCUPS.Parse`. -/
def ParserCUPS.names : List (String × Nat) :=
  [("cpu_state", 4), ("memory_bandwith", 6), ("io_bandwith", 8)]

/-- The method `ParserCUPS.Parse`. -/
def ParserCUPS.Parse (response : IpmiResponse) : Option MetricMap :=
  rangeNames response ParserCUPS.names []

/-- The method `ParserNodeManager.GetMetrics`. -/
def ParserNodeManager.GetMetrics : List String := ["", "min", "max", "avg"]

/-- The table `names` of `ParserNodeManager.Parse`. -/
def ParserNodeManager.names : List (String × Nat) :=
  [("", 4), ("min", 6), ("max", 8), ("avg", 10)]

/-- The method `ParserNodeManager.Parse`. -/
def ParserNodeManager.Parse (response : IpmiResponse) : Option MetricMap :=
  rangeNames response ParserNodeManager.names []

/-- The name `fmt.Sprintf("memory/dimm%d", i)`. -/
def dimmName (i : Nat) : String := "memory/dimm" ++ toString i

/-- The method `ParserTemp.GetMetrics`. -/
def ParserTemp.GetMetrics : List String :=
  ["cpu/cpu0", "cpu/cpu1", "cpu/cpu2", "cpu/cpu3"] ++ (List.range 64).map dimmName

/-- The loop `for i := 8; i < len(response.Data); i++` of the valid branch, over
the values of `i` still to visit. -/
def ParserTemp.dimmLoop (response : IpmiResponse) : List Nat → MetricMap → Option MetricMap
  | [], m => some m
  | i :: rest, m =>
    match response.Data[i]? with
    | some b => ParserTemp.dimmLoop response rest (MetricMap.store m (dimmName (i - 8)) (uint16 b.val))
    | none => none

/-- The loop `for i := 8; i < len(response.Data); i++` of the invalid branch. -/
def ParserTemp.dimmLoopInvalid : List Nat → MetricMap → MetricMap
  | [], m => m
  | i :: rest, m => ParserTemp.dimmLoopInvalid rest (MetricMap.store m (dimmName (i - 8)) 0xFFFF)

/-- The method `ParserTemp.Parse`. -/
def ParserTemp.Parse (response : IpmiResponse) : Option MetricMap :=
  let m : MetricMap := []
  if response.IsValid = 1 then
    match response.Data[4]?, response.Data[5]?, response.Data[6]?, response.Data[7]? with
    | some b4, some b5, some b6, some b7 =>
      let m := MetricMap.store m "cpu/cpu0" (uint16 b4.val)
      let m := MetricMap.store m "cpu/cpu1" (uint16 b5.val)
      let m := MetricMap.store m "cpu/cpu2" (uint16 b6.val)
      let m := MetricMap.store m "cpu/cpu3" (uint16 b7.val)
      ParserTemp.dimmLoop response (List.range' 8 (response.Data.length - 8)) m
    | _, _, _, _ => none
  else
    let m := MetricMap.store m "cpu/cpu0" 0xFFFF
    let m := MetricMap.store m "cpu/cpu1" 0xFFFF
    let m := MetricMap.store m "cpu/cpu2" 0xFFFF
    let m := MetricMap.store m "cpu/cpu3" 0xFFFF
    some (ParserTemp.dimmLoopInvalid (List.range' 8 (response.Data.length - 8)) m)

/-- The method `ParserPECI.GetMetrics`. -/
def ParserPECI.GetMetrics : List String := ["", "margin_offset"]

/-- The method `ParserPECI.Parse`. -/
def ParserPECI.Parse (response : IpmiResponse) : Option MetricMap :=
  let m : MetricMap := []
  if response.IsValid = 1 then
    match response.Data[6]? with
    | some b6 =>
      let m := MetricMap.store m "margin_offset" (uint16 b6.val)
      match response.Data[7]?, response.Data[8]? with
      | some b7, some b8 => some (MetricMap.store m "" (word16 b7 b8))
      | _, _ => none
    | none => none
  else
    let m := MetricMap.store m "margin_offset" 0xFFFF
    some (MetricMap.store m "" 0xFFFF)

/-- The method `ParserPMBus.GetMetrics`. -/
def ParserPMBus.GetMetrics : List String := ["VR0", "VR1", "VR2", "VR3", "VR4", "VR5"]

/-- The table `names` of `ParserPMBus.Parse`. -/
def ParserPMBus.names : List (String × Nat) :=
  [("VR0", 4), ("VR1", 6), ("VR2", 8), ("VR3", 10), ("VR4", 12), ("VR5", 14)]

/-- The method `ParserPMBus.Parse`. -/
def ParserPMBus.Parse (response : IpmiResponse) : Option MetricMap :=
  rangeNames response ParserPMBus.names []

/-- The method `ParserSR.GetMetrics`. -/
def ParserSR.GetMetrics : List String := [""]

/-- The method `ParserSR.Parse`. -/
def ParserSR.Parse (response : IpmiResponse) : Option MetricMap :=
  let m : MetricMap := []
  match response.Data[1]? with
  | some b1 => some (MetricMap.store m "" (uint16 b1.val))
  | none => none

/-- Modelled from the spec: the interface of a format decoder (`GetMetrics`,
`Parse` and the embedded `Validate`) is declared outside the sources; its six
implementations are the decoders above, one constructor each. -/
inductive ParserFormat where
  | FormatCUPS
  | FormatNodeManager
  | FormatTemp
  | FormatPECI
  | FormatPMBus
  | FormatSR
deriving DecidableEq, Repr

/-- Dispatch of `format.GetMetrics()`. -/
def ParserFormat.GetMetrics : ParserFormat → List String
  | .FormatCUPS => ParserCUPS.GetMetrics
  | .FormatNodeManager => ParserNodeManager.GetMetrics
  | .FormatTemp => ParserTemp.GetMetrics
  | .FormatPECI => ParserPECI.GetMetrics
  | .FormatPMBus => ParserPMBus.GetMetrics
  | .FormatSR => ParserSR.GetMetrics

/-- Dispatch of `format.Parse(resp)`. -/
def ParserFormat.Parse : ParserFormat → IpmiResponse → Option MetricMap
  | .FormatCUPS => ParserCUPS.Parse
  | .FormatNodeManager => ParserNodeManager.Parse
  | .FormatTemp => ParserTemp.Parse
  | .FormatPECI => ParserPECI.Parse
  | .FormatPMBus => ParserPMBus.Parse
  | .FormatSR => ParserSR.Parse

/-- Dispatch of `format.Validate(resp)`: every decoder embeds `*GenericValidator`. -/
def ParserFormat.Validate (_ : ParserFormat) (response : IpmiResponse) : Option ValidateError :=
  GenericValidator.Validate response

/-! ## Decode step (`plugin.go`, `CollectMetrics`, body of the response loop) -/

/-- The statements
`if err := format.Validate(resp); err != nil { resp.IsValid = 0 }` and
`submetrics := format.Parse(resp)`. -/
def decodeStep (format : ParserFormat) (resp : IpmiResponse) : Option MetricMap :=
  let resp := if (format.Validate resp).isSome then { resp with IsValid := 0 } else resp
  format.Parse resp

/-! ## Out-of-band execution (`oob.go`) -/

/-- Modelled from the spec: the declaration of `IpmiRequest` is not among the sources. A
request is an opaque raw command payload; `Data` is the field the sources read. -/
structure IpmiRequest where
  /-- Raw command bytes. -/
  Data : List Byte
deriving DecidableEq, Repr

/-- The struct `LinuxOutOfBand` (its mutex carries no data). -/
structure LinuxOutOfBand where
  Device : String
  Channel : String
  Slave : String
  Addr : List String
  User : String
  Pass : String
deriving DecidableEq, Repr

/-- The method `LinuxOutOfBand.RunParallelRequests`. The function `ExecIpmiToolRemote` is
declared outside the sources and is a parameter. -/
def LinuxOutOfBand.RunParallelRequests
    (ExecIpmiToolRemote : List Byte → LinuxOutOfBand → String → List Byte)
    (al : LinuxOutOfBand) (request : IpmiRequest) (host : String) (index : Int) : IpmiResponse :=
  let res : IpmiResponse := { Data := [], IsValid := 0, Source := "", Index := 0 }
  let res := { res with Data := ExecIpmiToolRemote request.Data al host }
  let res := { res with Source := host }
  let res := { res with Index := index }
  res

/-! ## Library functions of the collector (`strings`) -/

/-- The pieces of a character list between the occurrences of `sep`. -/
def splitChars (sep : Char) : List Char → List (List Char)
  | [] => [[]]
  | c :: cs =>
    if c = sep then [] :: splitChars sep cs
    else
      match splitChars sep cs with
      | [] => [[c]]
      | w :: ws => (c :: w) :: ws

/-- The library function `strings.Split(s, sep)` for a separator of one character. -/
def strings.Split (s : String) (sep : Char) : List String :=
  (splitChars sep s.data).map String.mk

/-- The library function `strings.Join(a, sep)`. -/
def strings.Join (a : List String) (sep : String) : String := sep.intercalate a

/-- The library function `strings.Contains(s, substr)`: `substr` starts at some position
of `s`. -/
def strings.Contains (s substr : String) : Bool :=
  s.data.tails.any (fun t => substr.data.isPrefixOf t)

/-! ## Collector (`plugin.go`) -/

/-- The variable `namespacePrefix`. -/
def namespacePrefix : List String := ["intel", "node_manager"]

/-- The function `makeName`. -/
def makeName (metric : String) : List String := namespacePrefix ++ strings.Split metric '/'

/-- The function `parseName`; the slice expression `namespace[len(namespacePrefix):]` stops
with a runtime error on a shorter namespace. -/
def parseName (ns : List String) : Option String :=
  if namespacePrefix.length ≤ ns.length then
    some (strings.Join (ns.drop namespacePrefix.length) "/")
  else
    none

/-- The function `extendPath`. -/
def extendPath (path ext : String) : String :=
  if ext = "" then path else path ++ "/" ++ ext

/-- The function `contains`: membership in the set built from the slice. -/
def contains (slice : List String) (item : String) : Bool := decide (item ∈ slice)

/-- Modelled from the spec: the declaration of `RequestDescription` is not among the sources.
It binds a request to a metrics root and to a format decoder. -/
structure RequestDescription where
  Request : IpmiRequest
  MetricsRoot : String
  Format : ParserFormat
deriving DecidableEq, Repr

/-- Modelled from the spec: configuration values are declared by the hosting framework. The
sources read them through the type assertion `.(ctypes.ConfigValueStr)`, so a value is a
string or something else. -/
inductive ConfigValue where
  | ConfigValueStr (Value : String)
  | ConfigValueOther
deriving DecidableEq, Repr

/-- The type `map[string]ctypes.ConfigValue`. -/
abbrev ConfigTable := List (String × ConfigValue)

/-- Modelled from the spec: the metric type of the hosting framework, with the fields the
sources set (`Namespace_`, `Source_`, `Timestamp_`, `Data_`) and the table the sources read
through `Config().Table()`. `Data_` is `none` when no value has been set. -/
structure PluginMetricType where
  Namespace_ : List String
  Source_ : String
  Timestamp_ : Nat
  Data_ : Option Nat
  Config_ : ConfigTable
deriving DecidableEq, Repr

/-- The three implementations of the interface `ipmi.IpmiAL` that `construct` builds. -/
inductive IpmiAL where
  | LinuxInBandIpmitool (Device Channel Slave : String)
  | LinuxOutOfBand (al : LinuxOutOfBand)
  | LinuxInband
deriving DecidableEq, Repr

/-- What the collector obtains from code outside the sources: the host name of the operating
system, the lines of a hosts file, the catalog and the batch execution of an execution layer,
and the clock. -/
structure Env where
  /-- The call `os.Hostname()`. -/
  Hostname : String
  /-- The lines a scanner reads from the file of the given path. -/
  readLines : String → List String
  /-- The call `ipmiLayer.GetPlatformCapabilities(ipmi.GenericVendor, hostList)`. -/
  GetPlatformCapabilities : IpmiAL → List String → String → List RequestDescription
  /-- The call `ic.IpmiLayer.BatchExecRaw(requests, host)`. -/
  BatchExecRaw : IpmiAL → List IpmiRequest → String → List IpmiResponse
  /-- The call `time.Now()`. -/
  Now : Nat

/-- The struct `IpmiCollector`; `IpmiLayer` is `none` for the nil interface, and `Vendor`
returns the empty list for a host the map does not hold. -/
structure IpmiCollector where
  IpmiLayer : Option IpmiAL
  Vendor : String → List RequestDescription
  Hosts : List String
  Mode : String
  Initialized : Bool
  NSim : Int

/-- The constructor `New`. -/
def New : IpmiCollector :=
  { IpmiLayer := none, Vendor := fun _ => [], Hosts := [], Mode := "", Initialized := false,
    NSim := 0 }

/-- The shape shared by `getMode`, `getChannel`, `getSlave`, `getPass` and `getUser`: the
string under `key`, a default when the key is absent; `none` is the runtime error of the
type assertion. -/
def getString (config : ConfigTable) (key dflt : String) : Option String :=
  match config.lookup key with
  | some (ConfigValue.ConfigValueStr v) => some v
  | some ConfigValue.ConfigValueOther => none
  | none => some dflt

/-- The function `getMode`. -/
def getMode (config : ConfigTable) : Option String := getString config "mode" ""

/-- The function `getChannel`. -/
def getChannel (config : ConfigTable) : Option String := getString config "channel" "0x00"

/-- The function `getSlave`. -/
def getSlave (config : ConfigTable) : Option String := getString config "slave" "0x00"

/-- The function `getPass`. -/
def getPass (config : ConfigTable) : Option String := getString config "password" ""

/-- The function `getUser`. -/
def getUser (config : ConfigTable) : Option String := getString config "user" ""

/-- The function `getHosts`. -/
def getHosts (W : Env) (config : ConfigTable) : Option (List String) :=
  match config.lookup "hosts" with
  | some (ConfigValue.ConfigValueStr v) => some (W.readLines v)
  | some ConfigValue.ConfigValueOther => none
  | none => some [""]

/-- The tail of `construct`, after the mode has selected a layer and a host list. -/
def IpmiCollector.install (W : Env) (ic : IpmiCollector) (ipmiLayer : IpmiAL)
    (hostList : List String) : IpmiCollector :=
  { ic with
    IpmiLayer := some ipmiLayer
    Hosts := hostList
    Vendor := W.GetPlatformCapabilities ipmiLayer hostList
    Initialized := true }

/-- The method `IpmiCollector.construct`. -/
def IpmiCollector.construct (W : Env) (ic : IpmiCollector) (cfg : ConfigTable) :
    Option IpmiCollector :=
  match getMode cfg with
  | none => none
  | some mode =>
    let ic := { ic with Mode := mode }
    match getChannel cfg, getSlave cfg, getUser cfg, getPass cfg with
    | some channel, some slave, some user, some pass =>
      let host := W.Hostname
      if ic.Mode = "legacy_inband" then
        some (ic.install W (IpmiAL.LinuxInBandIpmitool "ipmitool" channel slave) [host])
      else if ic.Mode = "oob" then
        match getHosts W cfg with
        | some hostList =>
          some (ic.install W (IpmiAL.LinuxOutOfBand
            { Device := "ipmitool", Channel := channel, Slave := slave, Addr := [],
              User := user, Pass := pass }) hostList)
        | none => none
      else if ic.Mode = "legacy_inband_openipmi" then
        some (ic.install W IpmiAL.LinuxInband [])
      else
        some ic
    | _, _, _, _ => none

/-- The three nested loops of `GetMetricTypes`. -/
def metricTypes (Hosts : List String) (Vendor : String → List RequestDescription) :
    List PluginMetricType :=
  Hosts.foldl (fun mts host =>
    (Vendor host).foldl (fun mts req =>
      req.Format.GetMetrics.foldl (fun mts metric =>
        let path := extendPath host req.MetricsRoot
        let path := extendPath path metric
        mts ++ [{ Namespace_ := makeName path, Source_ := host, Timestamp_ := 0,
                  Data_ := none, Config_ := [] }]) mts) mts) []

/-- The method `IpmiCollector.GetMetricTypes`: the collector afterwards, the metrics and the
error (`none` is `nil`). -/
def IpmiCollector.GetMetricTypes (W : Env) (ic : IpmiCollector) (cfg : ConfigTable) :
    Option (IpmiCollector × List PluginMetricType × Option String) :=
  match ic.construct W cfg with
  | none => none
  | some ic =>
    if ic.IpmiLayer.isNone then
      some ({ ic with Initialized := false }, [], some "Wrong mode configuration")
    else
      some ({ ic with Initialized := true }, metricTypes ic.Hosts ic.Vendor, none)

/-- The variables of the grouping loop of `CollectMetrics`; a map from hosts to slices returns
the empty slice for a host it does not hold. -/
structure Grouping where
  requestList : String → List IpmiRequest
  requestDescList : String → List RequestDescription
  hosts : List String
  requests : List String

/-- The loop `for _, rq := range ic.Vendor[mt.Namespace()[2]]` of `CollectMetrics`. -/
def groupCatalog (ns host : String) : List RequestDescription → Grouping → Grouping
  | [], g => g
  | rq :: rest, g =>
    if strings.Contains ns rq.MetricsRoot && contains g.requests rq.MetricsRoot == false then
      groupCatalog ns host rest
        { g with
          requests := g.requests ++ [rq.MetricsRoot]
          requestList := Function.update g.requestList host (g.requestList host ++ [rq.Request])
          requestDescList :=
            Function.update g.requestDescList host (g.requestDescList host ++ [rq]) }
    else
      groupCatalog ns host rest g

/-- The loop `for _, mt := range mts` that groups the requests of `CollectMetrics`; `none` is
the runtime error of `mt.Namespace()[2]` on a namespace of fewer than three segments. -/
def groupRequests (Vendor : String → List RequestDescription) :
    List PluginMetricType → Grouping → Option Grouping
  | [], g => some g
  | mt :: rest, g =>
    match parseName mt.Namespace_, mt.Namespace_[2]? with
    | some ns, some host =>
      let g :=
        if contains g.hosts host == false then
          { g with
            hosts := g.hosts ++ [host]
            requestDescList := Function.update g.requestDescList host []
            requestList := Function.update g.requestList host [] }
        else g
      groupRequests Vendor rest (groupCatalog ns host (Vendor host) g)
    | _, _ => none

/-- The loop `for _, host := range hosts` that runs the batches; calling `BatchExecRaw` on
the nil interface is a runtime error. -/
def execBatches (W : Env) (layer : Option IpmiAL) (requestList : String → List IpmiRequest) :
    List String → (String → List IpmiResponse) → Option (String → List IpmiResponse)
  | [], response => some response
  | host :: rest, response =>
    match layer with
    | some al =>
      execBatches W layer requestList rest
        (Function.update response host (W.BatchExecRaw al (requestList host) host))
    | none => none

/-- The loop `for k, v := range submetrics` of the decode loop. -/
def cacheSubmetrics (host root : String) (submetrics cached : MetricMap) : MetricMap :=
  submetrics.foldl (fun cached kv =>
    let path := extendPath host root
    let path := extendPath path kv.1
    MetricMap.store cached path kv.2) cached

/-- The loop `for i, resp := range hostResponses` of `CollectMetrics`, from index `i` on;
`none` is a runtime error: `requestDescList[nmResponseIdx][i]` out of range, or a payload
index out of range in `Parse`. -/
def decodeResponses (host : String) (descs : List RequestDescription) :
    List IpmiResponse → Nat → MetricMap → Option MetricMap
  | [], _, cached => some cached
  | resp :: rest, i, cached =>
    match descs[i]? with
    | some desc =>
      match decodeStep desc.Format resp with
      | some submetrics =>
        decodeResponses host descs rest (i + 1)
          (cacheSubmetrics host desc.MetricsRoot submetrics cached)
      | none => none
    | none => none

/-- The loop `for nmResponseIdx, hostResponses := range response`; the keys of `response`
are the entries of `hosts`, which are distinct. `responseCache[nmResponseIdx]` is assigned
inside the inner loop, hence only for a host with at least one response. -/
def decodeAll (requestDescList : String → List RequestDescription)
    (response : String → List IpmiResponse) :
    List String → (String → MetricMap) → Option (String → MetricMap)
  | [], responseCache => some responseCache
  | host :: rest, responseCache =>
    match decodeResponses host (requestDescList host) (response host) 0 [] with
    | some cached =>
      decodeAll requestDescList response rest
        (if (response host).isEmpty then responseCache
         else Function.update responseCache host cached)
    | none => none

/-- The last loop `for _, mt := range mts` of `CollectMetrics`; a key the cache does not hold
reads as the zero value. -/
def buildResults (responseCache : String → MetricMap) (t : Nat) :
    List PluginMetricType → List PluginMetricType → Option (List PluginMetricType)
  | [], responseMetrics => some responseMetrics
  | mt :: rest, responseMetrics =>
    let ns := mt.Namespace_
    match parseName ns, ns[2]? with
    | some key, some host =>
      let data := (MetricMap.find (responseCache host) key).getD 0
      buildResults responseCache t rest
        (responseMetrics ++ [{ Namespace_ := ns, Source_ := host, Timestamp_ := t,
                               Data_ := some data, Config_ := [] }])
    | _, _ => none

/-- The grouping loop of `CollectMetrics` from its initial, empty variables. -/
def grouping (Vendor : String → List RequestDescription) (mts : List PluginMetricType) :
    Option Grouping :=
  groupRequests Vendor mts
    { requestList := fun _ => [], requestDescList := fun _ => [], hosts := [], requests := [] }

/-- The method `IpmiCollector.CollectMetrics`: the collector afterwards, the results and the
error, which is always `nil`; `none` is a runtime error. -/
def IpmiCollector.CollectMetrics (W : Env) (ic : IpmiCollector) (mts : List PluginMetricType) :
    Option (IpmiCollector × List PluginMetricType × Option String) :=
  let ic? : Option IpmiCollector :=
    if ic.Initialized then some ic
    else
      match mts with
      | mt :: _ => ic.construct W mt.Config_
      | [] => none
  match ic? with
  | none => none
  | some ic =>
    match grouping ic.Vendor mts with
    | none => none
    | some g =>
      match execBatches W ic.IpmiLayer g.requestList g.hosts (fun _ => []) with
      | none => none
      | some response =>
        match decodeAll g.requestDescList response g.hosts (fun _ => []) with
        | none => none
        | some responseCache =>
          match buildResults responseCache W.Now mts [] with
          | none => none
          | some responseMetrics => some (ic, responseMetrics, none)

/-- Written from the claim's words: the responses are decoded pairwise with the descriptors
submitted at the same positions, with no index to look up. -/
def decodePaired (host : String) : List (RequestDescription × IpmiResponse) → MetricMap →
    Option MetricMap
  | [], cached => some cached
  | (desc, resp) :: rest, cached =>
    match decodeStep desc.Format resp with
    | some submetrics =>
      decodePaired host rest (cacheSubmetrics host desc.MetricsRoot submetrics cached)
    | none => none

/-- Written from the claim's words: the path `host/metrics-root/name`, the `/name` segment
being omitted when `name` is the empty string. -/
def claimedPath (host root name : String) : String :=
  host ++ "/" ++ root ++ (if name = "" then "" else "/" ++ name)

/-! ## Auxiliary definitions of the proofs -/

/-- Reads a list of decimal digit characters back, most significant first. -/
def readDigits (acc : Nat) (cs : List Char) : Nat :=
  cs.foldl (fun a c => a * 10 + (c.toNat - 48)) acc

/-- Two results of a decoder are the same: both are the runtime error, or both are maps with
the same lookups. -/
def SameResult : Option MetricMap → Option MetricMap → Prop
  | none, none => True
  | some x, some y => ∀ k, MetricMap.find x k = MetricMap.find y k
  | _, _ => False

/-- Invariant of the grouping loop of `CollectMetrics`: the requests of a host are those of
its descriptors, position by position; every grouped descriptor comes from the catalog of its
host and has its metrics root recorded in `requests`; no host has two descriptors with the
same metrics root. -/
def GroupingInv (Vendor : String → List RequestDescription) (g : Grouping) : Prop :=
  (∀ h, g.requestList h = (g.requestDescList h).map (fun d => d.Request)) ∧
  (∀ h, ∀ d ∈ g.requestDescList h, d.MetricsRoot ∈ g.requests ∧ d ∈ Vendor h) ∧
  (∀ h, ((g.requestDescList h).map (fun d => d.MetricsRoot)).Nodup)

/-- A sample environment for the closed statements: the operating system's host name is `h`,
every hosts file holds the lines `a` and `b`, the catalog of every host is one sensor-reading
command with metrics root `sensor`, and the execution layer answers each submitted request, in
order, with the valid payload `[0, 7]`. -/
def sampleEnv : Env :=
  { Hostname := "h"
    readLines := fun _ => ["a", "b"]
    GetPlatformCapabilities := fun _ _ _ => [⟨⟨[1]⟩, "sensor", ParserFormat.FormatSR⟩]
    BatchExecRaw := fun _ requests host => requests.map (fun _ => ⟨[0, 7], 1, host, 0⟩)
    Now := 42 }

/-! ## Arithmetic of the 16-bit reconstruction -/

theorem uint16_byte (b : Byte) : uint16 b.val = b.val := by
  have h := b.isLt
  unfold uint16
  omega

theorem word16_eq (lo hi : Byte) : word16 lo hi = lo.val + 256 * hi.val := by
  have h1 := lo.isLt
  have h2 := hi.isLt
  unfold word16 add16 mul16 uint16
  omega

/-! ## Decimal rendering is injective -/

theorem digitChar_value (k : Nat) (hk : k < 10) : (Nat.digitChar k).toNat - 48 = k := by
  interval_cases k <;> rfl

theorem readDigits_toDigitsCore (fuel : Nat) :
    ∀ (n : Nat) (ds : List Char), n < fuel →
      readDigits 0 (Nat.toDigitsCore 10 fuel n ds) = readDigits n ds := by
  induction fuel with
  | zero => intro n ds h; omega
  | succ fuel ih =>
    intro n ds h
    have hd : (Nat.digitChar (n % 10)).toNat - 48 = n % 10 :=
      digitChar_value _ (Nat.mod_lt _ (by decide))
    unfold Nat.toDigitsCore
    by_cases h0 : n / 10 = 0
    · simp only [h0, if_true]
      show readDigits (0 * 10 + ((Nat.digitChar (n % 10)).toNat - 48)) ds = readDigits n ds
      rw [hd]
      congr 1
      omega
    · simp only [h0, if_false]
      rw [ih (n / 10) _ (by omega)]
      show readDigits (n / 10 * 10 + ((Nat.digitChar (n % 10)).toNat - 48)) ds = readDigits n ds
      rw [hd]
      congr 1
      omega

theorem readDigits_toDigits (n : Nat) : readDigits 0 (Nat.toDigits 10 n) = n := by
  unfold Nat.toDigits
  rw [readDigits_toDigitsCore (n + 1) n [] (by omega)]
  rfl

theorem toString_nat_injective (a b : Nat) (h : toString a = toString b) : a = b := by
  have h1 : (toString a).data = (toString b).data := by rw [h]
  have h2 : Nat.toDigits 10 a = Nat.toDigits 10 b := h1
  have h3 := congrArg (readDigits 0) h2
  rwa [readDigits_toDigits, readDigits_toDigits] at h3

theorem dimmName_data (i : Nat) :
    (dimmName i).data = 'm' :: 'e' :: 'm' :: 'o' :: 'r' :: 'y' :: '/' :: 'd' :: 'i' :: 'm' :: 'm'
      :: (toString i).data := by
  unfold dimmName
  rw [String.data_append]
  rfl

theorem dimmName_injective (a b : Nat) (h : dimmName a = dimmName b) : a = b := by
  have h1 : (dimmName a).data = (dimmName b).data := by rw [h]
  rw [dimmName_data, dimmName_data] at h1
  have h2 : (toString a).data = (toString b).data := by simpa using h1
  exact toString_nat_injective a b (String.ext h2)

theorem dimmName_head (i : Nat) (s : String) (hs : s.data.head? ≠ some 'm') : dimmName i ≠ s := by
  intro h
  apply hs
  rw [← h, dimmName_data]
  rfl

/-! ## Maps -/

theorem keys_append (a b : MetricMap) :
    MetricMap.keys (a ++ b) = MetricMap.keys a ++ MetricMap.keys b := by
  simp [MetricMap.keys]

theorem store_of_not_mem (m : MetricMap) (k : String) (v : Nat) (h : k ∉ MetricMap.keys m) :
    MetricMap.store m k v = m ++ [(k, v)] := by
  induction m with
  | nil => rfl
  | cons e rest ih =>
    obtain ⟨k', v'⟩ := e
    have hk : ¬ k' = k := by
      intro hh
      apply h
      simp [MetricMap.keys, hh]
    have hr : k ∉ MetricMap.keys rest := by
      intro hh
      apply h
      simp only [MetricMap.keys, List.map_cons, List.mem_cons]
      exact Or.inr hh
    simp only [MetricMap.store, hk, if_false, ih hr, List.cons_append]

theorem find_eq_none_iff (m : MetricMap) (k : String) :
    MetricMap.find m k = none ↔ k ∉ MetricMap.keys m := by
  induction m with
  | nil => simp [MetricMap.find, MetricMap.keys]
  | cons e rest ih =>
    obtain ⟨k', v'⟩ := e
    by_cases hk : k' = k
    · simp [MetricMap.find, MetricMap.keys, hk]
    · have hk' : ¬ k = k' := fun hh => hk hh.symm
      simp only [MetricMap.find, hk, if_false, ih, MetricMap.keys, List.map_cons, List.mem_cons,
        hk', false_or]

theorem find_append (a b : MetricMap) (k : String) :
    MetricMap.find (a ++ b) k =
      match MetricMap.find a k with
      | some v => some v
      | none => MetricMap.find b k := by
  induction a with
  | nil => simp [MetricMap.find]
  | cons e rest ih =>
    obtain ⟨k', v'⟩ := e
    by_cases hk : k' = k
    · simp [MetricMap.find, hk]
    · simp only [List.cons_append, MetricMap.find, hk, if_false]
      exact ih

theorem find_append_of_not_mem (a b : MetricMap) (k : String) (h : k ∉ MetricMap.keys a) :
    MetricMap.find (a ++ b) k = MetricMap.find b k := by
  rw [find_append, (find_eq_none_iff a k).2 h]

theorem mem_keys_of_find (m : MetricMap) (k : String) (v : Nat) (h : MetricMap.find m k = some v) :
    k ∈ MetricMap.keys m := by
  by_contra hn
  rw [(find_eq_none_iff m k).2 hn] at h
  exact Option.noConfusion h

/-! ## The DIMM loops of the temperature decoder -/

theorem dimmName_sub_ne (s j : Nat) (hs : 8 ≤ s) (hj : s < j) :
    dimmName (j - 8) ≠ dimmName (s - 8) := by
  intro h
  have := dimmName_injective _ _ h
  omega

theorem dimmLoop_eq (r : IpmiResponse) :
    ∀ (c s : Nat) (m : MetricMap), s + c ≤ r.Data.length → 8 ≤ s →
      (∀ j, s ≤ j → dimmName (j - 8) ∉ MetricMap.keys m) →
      ParserTemp.dimmLoop r (List.range' s c) m =
        some (m ++ (List.range' s c).map (fun i => (dimmName (i - 8), (r.Data.getD i 0).val))) := by
  intro c
  induction c with
  | zero => intro s m _ _ _; simp [ParserTemp.dimmLoop]
  | succ c ih =>
    intro s m hlen hs hfresh
    have hlt : s < r.Data.length := by omega
    have hget : r.Data[s]? = some (r.Data.getD s 0) := by
      rw [List.getD_eq_getElem?_getD, List.getElem?_eq_getElem hlt]
      rfl
    have hnext : ∀ j, s + 1 ≤ j → dimmName (j - 8) ∉
        MetricMap.keys (m ++ [(dimmName (s - 8), (r.Data.getD s 0).val)]) := by
      intro j hj hmem
      rw [keys_append] at hmem
      rcases List.mem_append.1 hmem with h1 | h1
      · exact hfresh j (by omega) h1
      · simp only [MetricMap.keys, List.map_cons, List.map_nil, List.mem_singleton] at h1
        exact dimmName_sub_ne s j hs (by omega) h1
    simp only [List.range', ParserTemp.dimmLoop, hget, uint16_byte]
    rw [store_of_not_mem m _ _ (hfresh s (le_refl s)), ih (s + 1) _ (by omega) (by omega) hnext]
    simp

theorem dimmLoopInvalid_eq :
    ∀ (c s : Nat) (m : MetricMap), 8 ≤ s →
      (∀ j, s ≤ j → dimmName (j - 8) ∉ MetricMap.keys m) →
      ParserTemp.dimmLoopInvalid (List.range' s c) m =
        m ++ (List.range' s c).map (fun i => (dimmName (i - 8), 0xFFFF)) := by
  intro c
  induction c with
  | zero => intro s m _ _; simp [ParserTemp.dimmLoopInvalid]
  | succ c ih =>
    intro s m hs hfresh
    have hnext : ∀ j, s + 1 ≤ j → dimmName (j - 8) ∉
        MetricMap.keys (m ++ [(dimmName (s - 8), 0xFFFF)]) := by
      intro j hj hmem
      rw [keys_append] at hmem
      rcases List.mem_append.1 hmem with h1 | h1
      · exact hfresh j (by omega) h1
      · simp only [MetricMap.keys, List.map_cons, List.map_nil, List.mem_singleton] at h1
        exact dimmName_sub_ne s j hs (by omega) h1
    simp only [List.range', ParserTemp.dimmLoopInvalid]
    rw [store_of_not_mem m _ _ (hfresh s (le_refl s)), ih (s + 1) _ (by omega) hnext]
    simp

/-- The entries the DIMM loop adds for a payload of `n` bytes, with values `f i`. -/
theorem find_dimm_entries (f : Nat → Nat) :
    ∀ (c s I : Nat), 8 ≤ s →
      MetricMap.find ((List.range' s c).map (fun i => (dimmName (i - 8), f i))) (dimmName I) =
        if s ≤ I + 8 ∧ I + 8 < s + c then some (f (I + 8)) else none := by
  intro c
  induction c with
  | zero =>
    intro s I _
    rw [if_neg (by omega)]
    rfl
  | succ c ih =>
    intro s I hs
    simp only [List.range', List.map_cons, MetricMap.find]
    by_cases hI : s - 8 = I
    · have h1 : s = I + 8 := by omega
      subst h1
      simp
    · have hne : ¬ dimmName (s - 8) = dimmName I := fun h => hI (dimmName_injective _ _ h)
      rw [if_neg hne, ih (s + 1) I (by omega)]
      by_cases h2 : s + 1 ≤ I + 8 ∧ I + 8 < s + 1 + c
      · rw [if_pos h2, if_pos (by omega)]
      · rw [if_neg h2, if_neg (by omega)]

theorem keys_dimm_entries (f : Nat → Nat) (c : Nat) :
    MetricMap.keys ((List.range' 8 c).map (fun i => (dimmName (i - 8), f i))) =
      (List.range c).map dimmName := by
  simp only [MetricMap.keys, List.map_map, List.range'_eq_map_range]
  apply List.map_congr_left
  intro i _
  simp

/-! ## Results of the decoders -/

theorem getElem?_getD (l : List Byte) (i : Nat) (h : i < l.length) :
    l[i]? = some (l.getD i 0) := by
  rw [List.getD_eq_getElem?_getD, List.getElem?_eq_getElem h]
  rfl

theorem rangeNames_isSome (r : IpmiResponse) (hv : r.IsValid = 1) :
    ∀ (names : List (String × Nat)) (m : MetricMap),
      (rangeNames r names m).isSome = true ↔ ∀ e ∈ names, e.2 + 1 < r.Data.length := by
  intro names
  induction names with
  | nil => intro m; simp [rangeNames]
  | cons e rest ih =>
    intro m
    obtain ⟨name, o⟩ := e
    by_cases h : o + 1 < r.Data.length
    · have h0 : o < r.Data.length := by omega
      simp only [rangeNames, hv, if_true, getElem?_getD _ _ h, getElem?_getD _ _ h0, ih,
        List.mem_cons, forall_eq_or_imp, h, true_and]
    · have h1 : r.Data[o + 1]? = none := List.getElem?_eq_none (by omega)
      have h2 : (rangeNames r ((name, o) :: rest) m) = none := by
        simp only [rangeNames, hv, if_true, h1]
        cases r.Data[o]? <;> rfl
      rw [h2]
      simp only [List.mem_cons, forall_eq_or_imp, h, false_and]
      exact ⟨fun hh => Bool.noConfusion hh, fun hh => hh.elim⟩

theorem getD_eq_get (l : List Byte) (i : Nat) (h : i < l.length) : l.getD i 0 = l[i] := by
  rw [List.getD_eq_getElem?_getD, List.getElem?_eq_getElem h]
  rfl

theorem dimmName_not_cpu (i : Nat) (a b c d : Nat) :
    dimmName i ∉ MetricMap.keys
      [("cpu/cpu0", a), ("cpu/cpu1", b), ("cpu/cpu2", c), ("cpu/cpu3", d)] := by
  intro h
  simp only [MetricMap.keys, List.map_cons, List.map_nil, List.mem_cons, List.mem_singleton,
    List.not_mem_nil, or_false] at h
  rcases h with h | h | h | h <;> exact dimmName_head i _ (by decide) h

theorem ParserTemp_valid_eq (r : IpmiResponse) (hv : r.IsValid = 1) (hn : 8 ≤ r.Data.length) :
    ParserTemp.Parse r = some
      ([("cpu/cpu0", (r.Data.getD 4 0).val), ("cpu/cpu1", (r.Data.getD 5 0).val),
        ("cpu/cpu2", (r.Data.getD 6 0).val), ("cpu/cpu3", (r.Data.getD 7 0).val)] ++
       (List.range' 8 (r.Data.length - 8)).map
        (fun i => (dimmName (i - 8), (r.Data.getD i 0).val))) := by
  unfold ParserTemp.Parse
  simp only [hv, if_true, getElem?_getD r.Data 4 (by omega), getElem?_getD r.Data 5 (by omega),
    getElem?_getD r.Data 6 (by omega), getElem?_getD r.Data 7 (by omega), uint16_byte]
  have hs : ∀ a b c d : Nat,
      MetricMap.store (MetricMap.store (MetricMap.store (MetricMap.store [] "cpu/cpu0" a)
        "cpu/cpu1" b) "cpu/cpu2" c) "cpu/cpu3" d =
      [("cpu/cpu0", a), ("cpu/cpu1", b), ("cpu/cpu2", c), ("cpu/cpu3", d)] := by
    intro a b c d
    simp [MetricMap.store]
  rw [hs]
  exact dimmLoop_eq r _ 8 _ (by omega) (le_refl 8) (fun j _ => dimmName_not_cpu _ _ _ _ _)

theorem ParserTemp_valid_short (r : IpmiResponse) (hv : r.IsValid = 1) (hn : r.Data.length < 8) :
    ParserTemp.Parse r = none := by
  unfold ParserTemp.Parse
  have h7 : r.Data[7]? = none := List.getElem?_eq_none (by omega)
  simp only [hv, if_true, h7]
  cases r.Data[4]? <;> cases r.Data[5]? <;> cases r.Data[6]? <;> rfl

theorem ParserTemp_invalid_eq (r : IpmiResponse) (hv : r.IsValid ≠ 1) :
    ParserTemp.Parse r = some
      ([("cpu/cpu0", 0xFFFF), ("cpu/cpu1", 0xFFFF), ("cpu/cpu2", 0xFFFF), ("cpu/cpu3", 0xFFFF)] ++
       (List.range' 8 (r.Data.length - 8)).map (fun i => (dimmName (i - 8), 0xFFFF))) := by
  unfold ParserTemp.Parse
  simp only [hv, if_false]
  have hs : ∀ a b c d : Nat,
      MetricMap.store (MetricMap.store (MetricMap.store (MetricMap.store [] "cpu/cpu0" a)
        "cpu/cpu1" b) "cpu/cpu2" c) "cpu/cpu3" d =
      [("cpu/cpu0", a), ("cpu/cpu1", b), ("cpu/cpu2", c), ("cpu/cpu3", d)] := by
    intro a b c d
    simp [MetricMap.store]
  rw [hs, dimmLoopInvalid_eq _ 8 _ (le_refl 8) (fun j _ => dimmName_not_cpu _ _ _ _ _)]

theorem ParserCUPS_valid_eq (r : IpmiResponse) (hv : r.IsValid = 1) (hn : 10 ≤ r.Data.length) :
    ParserCUPS.Parse r = some
      [("cpu_state", (r.Data.getD 4 0).val + 256 * (r.Data.getD 5 0).val),
       ("memory_bandwith", (r.Data.getD 6 0).val + 256 * (r.Data.getD 7 0).val),
       ("io_bandwith", (r.Data.getD 8 0).val + 256 * (r.Data.getD 9 0).val)] := by
  have h4 := getElem?_getD r.Data 4 (by omega)
  have h5 := getElem?_getD r.Data 5 (by omega)
  have h6 := getElem?_getD r.Data 6 (by omega)
  have h7 := getElem?_getD r.Data 7 (by omega)
  have h8 := getElem?_getD r.Data 8 (by omega)
  have h9 := getElem?_getD r.Data 9 (by omega)
  generalize r.Data.getD 4 0 = b4 at h4 ⊢
  generalize r.Data.getD 5 0 = b5 at h5 ⊢
  generalize r.Data.getD 6 0 = b6 at h6 ⊢
  generalize r.Data.getD 7 0 = b7 at h7 ⊢
  generalize r.Data.getD 8 0 = b8 at h8 ⊢
  generalize r.Data.getD 9 0 = b9 at h9 ⊢
  simp [ParserCUPS.Parse, ParserCUPS.names, rangeNames, hv, h4, h5, h6, h7, h8, h9,
    MetricMap.store, word16_eq]

theorem ParserCUPS_invalid_eq (r : IpmiResponse) (hv : r.IsValid ≠ 1) :
    ParserCUPS.Parse r = some
      [("cpu_state", 0xFFFF), ("memory_bandwith", 0xFFFF), ("io_bandwith", 0xFFFF)] := by
  simp [ParserCUPS.Parse, ParserCUPS.names, rangeNames, hv, MetricMap.store]

theorem ParserCUPS_valid_isSome (r : IpmiResponse) (hv : r.IsValid = 1) :
    (ParserCUPS.Parse r).isSome = true ↔ 10 ≤ r.Data.length := by
  unfold ParserCUPS.Parse
  rw [rangeNames_isSome r hv]
  simp only [ParserCUPS.names, List.mem_cons, List.mem_singleton, List.not_mem_nil, or_false,
    forall_eq_or_imp, forall_eq]
  omega

theorem ParserNodeManager_valid_eq (r : IpmiResponse) (hv : r.IsValid = 1)
    (hn : 12 ≤ r.Data.length) :
    ParserNodeManager.Parse r = some
      [("", (r.Data.getD 4 0).val + 256 * (r.Data.getD 5 0).val),
       ("min", (r.Data.getD 6 0).val + 256 * (r.Data.getD 7 0).val),
       ("max", (r.Data.getD 8 0).val + 256 * (r.Data.getD 9 0).val),
       ("avg", (r.Data.getD 10 0).val + 256 * (r.Data.getD 11 0).val)] := by
  have h4 := getElem?_getD r.Data 4 (by omega)
  have h5 := getElem?_getD r.Data 5 (by omega)
  have h6 := getElem?_getD r.Data 6 (by omega)
  have h7 := getElem?_getD r.Data 7 (by omega)
  have h8 := getElem?_getD r.Data 8 (by omega)
  have h9 := getElem?_getD r.Data 9 (by omega)
  have h10 := getElem?_getD r.Data 10 (by omega)
  have h11 := getElem?_getD r.Data 11 (by omega)
  generalize r.Data.getD 4 0 = b4 at h4 ⊢
  generalize r.Data.getD 5 0 = b5 at h5 ⊢
  generalize r.Data.getD 6 0 = b6 at h6 ⊢
  generalize r.Data.getD 7 0 = b7 at h7 ⊢
  generalize r.Data.getD 8 0 = b8 at h8 ⊢
  generalize r.Data.getD 9 0 = b9 at h9 ⊢
  generalize r.Data.getD 10 0 = b10 at h10 ⊢
  generalize r.Data.getD 11 0 = b11 at h11 ⊢
  simp [ParserNodeManager.Parse, ParserNodeManager.names, rangeNames, hv, h4, h5, h6, h7,
    h8, h9, h10, h11, MetricMap.store, word16_eq]

theorem ParserNodeManager_invalid_eq (r : IpmiResponse) (hv : r.IsValid ≠ 1) :
    ParserNodeManager.Parse r = some
      [("", 0xFFFF), ("min", 0xFFFF), ("max", 0xFFFF), ("avg", 0xFFFF)] := by
  simp [ParserNodeManager.Parse, ParserNodeManager.names, rangeNames, hv, MetricMap.store]

theorem ParserNodeManager_valid_isSome (r : IpmiResponse) (hv : r.IsValid = 1) :
    (ParserNodeManager.Parse r).isSome = true ↔ 12 ≤ r.Data.length := by
  unfold ParserNodeManager.Parse
  rw [rangeNames_isSome r hv]
  simp only [ParserNodeManager.names, List.mem_cons, List.mem_singleton, List.not_mem_nil,
    or_false, forall_eq_or_imp, forall_eq]
  omega

theorem ParserPMBus_valid_eq (r : IpmiResponse) (hv : r.IsValid = 1) (hn : 16 ≤ r.Data.length) :
    ParserPMBus.Parse r = some
      [("VR0", (r.Data.getD 4 0).val + 256 * (r.Data.getD 5 0).val),
       ("VR1", (r.Data.getD 6 0).val + 256 * (r.Data.getD 7 0).val),
       ("VR2", (r.Data.getD 8 0).val + 256 * (r.Data.getD 9 0).val),
       ("VR3", (r.Data.getD 10 0).val + 256 * (r.Data.getD 11 0).val),
       ("VR4", (r.Data.getD 12 0).val + 256 * (r.Data.getD 13 0).val),
       ("VR5", (r.Data.getD 14 0).val + 256 * (r.Data.getD 15 0).val)] := by
  have h4 := getElem?_getD r.Data 4 (by omega)
  have h5 := getElem?_getD r.Data 5 (by omega)
  have h6 := getElem?_getD r.Data 6 (by omega)
  have h7 := getElem?_getD r.Data 7 (by omega)
  have h8 := getElem?_getD r.Data 8 (by omega)
  have h9 := getElem?_getD r.Data 9 (by omega)
  have h10 := getElem?_getD r.Data 10 (by omega)
  have h11 := getElem?_getD r.Data 11 (by omega)
  have h12 := getElem?_getD r.Data 12 (by omega)
  have h13 := getElem?_getD r.Data 13 (by omega)
  have h14 := getElem?_getD r.Data 14 (by omega)
  have h15 := getElem?_getD r.Data 15 (by omega)
  generalize r.Data.getD 4 0 = b4 at h4 ⊢
  generalize r.Data.getD 5 0 = b5 at h5 ⊢
  generalize r.Data.getD 6 0 = b6 at h6 ⊢
  generalize r.Data.getD 7 0 = b7 at h7 ⊢
  generalize r.Data.getD 8 0 = b8 at h8 ⊢
  generalize r.Data.getD 9 0 = b9 at h9 ⊢
  generalize r.Data.getD 10 0 = b10 at h10 ⊢
  generalize r.Data.getD 11 0 = b11 at h11 ⊢
  generalize r.Data.getD 12 0 = b12 at h12 ⊢
  generalize r.Data.getD 13 0 = b13 at h13 ⊢
  generalize r.Data.getD 14 0 = b14 at h14 ⊢
  generalize r.Data.getD 15 0 = b15 at h15 ⊢
  simp [ParserPMBus.Parse, ParserPMBus.names, rangeNames, hv, h4, h5, h6, h7, h8, h9,
    h10, h11, h12, h13, h14, h15, MetricMap.store, word16_eq]

theorem ParserPMBus_invalid_eq (r : IpmiResponse) (hv : r.IsValid ≠ 1) :
    ParserPMBus.Parse r = some
      [("VR0", 0xFFFF), ("VR1", 0xFFFF), ("VR2", 0xFFFF), ("VR3", 0xFFFF), ("VR4", 0xFFFF),
       ("VR5", 0xFFFF)] := by
  simp [ParserPMBus.Parse, ParserPMBus.names, rangeNames, hv, MetricMap.store]

theorem ParserPMBus_valid_isSome (r : IpmiResponse) (hv : r.IsValid = 1) :
    (ParserPMBus.Parse r).isSome = true ↔ 16 ≤ r.Data.length := by
  unfold ParserPMBus.Parse
  rw [rangeNames_isSome r hv]
  simp only [ParserPMBus.names, List.mem_cons, List.mem_singleton, List.not_mem_nil,
    or_false, forall_eq_or_imp, forall_eq]
  omega

theorem ParserPECI_valid_eq (r : IpmiResponse) (hv : r.IsValid = 1) (hn : 9 ≤ r.Data.length) :
    ParserPECI.Parse r = some
      [("margin_offset", (r.Data.getD 6 0).val),
       ("", (r.Data.getD 7 0).val + 256 * (r.Data.getD 8 0).val)] := by
  have h6 := getElem?_getD r.Data 6 (by omega)
  have h7 := getElem?_getD r.Data 7 (by omega)
  have h8 := getElem?_getD r.Data 8 (by omega)
  generalize r.Data.getD 6 0 = b6 at h6 ⊢
  generalize r.Data.getD 7 0 = b7 at h7 ⊢
  generalize r.Data.getD 8 0 = b8 at h8 ⊢
  simp [ParserPECI.Parse, hv, h6, h7, h8, MetricMap.store, word16_eq, uint16_byte]

theorem ParserPECI_valid_short (r : IpmiResponse) (hv : r.IsValid = 1) (hn : r.Data.length < 9) :
    ParserPECI.Parse r = none := by
  unfold ParserPECI.Parse
  have h8 : r.Data[8]? = none := List.getElem?_eq_none (by omega)
  simp only [hv, if_true, h8]
  cases r.Data[6]? <;> cases r.Data[7]? <;> rfl

theorem ParserPECI_invalid_eq (r : IpmiResponse) (hv : r.IsValid ≠ 1) :
    ParserPECI.Parse r = some [("margin_offset", 0xFFFF), ("", 0xFFFF)] := by
  simp [ParserPECI.Parse, hv, MetricMap.store]

theorem ParserSR_eq (r : IpmiResponse) (hn : 2 ≤ r.Data.length) :
    ParserSR.Parse r = some [("", (r.Data.getD 1 0).val)] := by
  have h1 := getElem?_getD r.Data 1 (by omega)
  generalize r.Data.getD 1 0 = b1 at h1 ⊢
  simp [ParserSR.Parse, h1, MetricMap.store, uint16_byte]

theorem ParserSR_short (r : IpmiResponse) (hn : r.Data.length < 2) : ParserSR.Parse r = none := by
  unfold ParserSR.Parse
  have h1 : r.Data[1]? = none := List.getElem?_eq_none (by omega)
  simp only [h1]

/-! ## The order in which `range names` visits the table does not matter -/

theorem find_store (m : MetricMap) (k k' : String) (v : Nat) :
    MetricMap.find (MetricMap.store m k v) k' =
      if k = k' then some v else MetricMap.find m k' := by
  induction m with
  | nil => simp [MetricMap.store, MetricMap.find]
  | cons e rest ih =>
    obtain ⟨k0, v0⟩ := e
    by_cases h0 : k0 = k
    · subst h0
      by_cases h1 : k0 = k' <;> simp [MetricMap.store, MetricMap.find, h1]
    · by_cases h1 : k0 = k'
      · subst h1
        have h2 : ¬ k = k0 := fun h => h0 h.symm
        simp [MetricMap.store, MetricMap.find, h0, h2]
      · simp [MetricMap.store, MetricMap.find, h0, h1, ih]

theorem SameResult_refl (a : Option MetricMap) : SameResult a a := by
  cases a with
  | none => exact True.intro
  | some x => exact fun _ => rfl

theorem SameResult_trans (a b c : Option MetricMap) (h1 : SameResult a b) (h2 : SameResult b c) :
    SameResult a c := by
  cases a <;> cases b <;> cases c <;> simp only [SameResult] at h1 h2 ⊢
  exact fun k => (h1 k).trans (h2 k)

theorem rangeNames_congr (r : IpmiResponse) :
    ∀ (names : List (String × Nat)) (m m' : MetricMap),
      (∀ k, MetricMap.find m k = MetricMap.find m' k) →
      SameResult (rangeNames r names m) (rangeNames r names m') := by
  intro names
  induction names with
  | nil => intro m m' h; exact h
  | cons e rest ih =>
    intro m m' h
    obtain ⟨name, o⟩ := e
    have hst : ∀ v k, MetricMap.find (MetricMap.store m name v) k =
        MetricMap.find (MetricMap.store m' name v) k := by
      intro v k
      rw [find_store, find_store, h k]
    by_cases hv : r.IsValid = 1
    · simp only [rangeNames, hv, if_true]
      cases r.Data[o]? with
      | none => exact True.intro
      | some lo =>
        cases r.Data[o + 1]? with
        | none => exact True.intro
        | some hi => exact ih _ _ (hst _)
    · simp only [rangeNames, hv, if_false]
      exact ih _ _ (hst _)

theorem rangeNames_swap (r : IpmiResponse) (a b : String × Nat) (rest : List (String × Nat))
    (m : MetricMap) (hab : a.1 ≠ b.1) :
    SameResult (rangeNames r (b :: a :: rest) m) (rangeNames r (a :: b :: rest) m) := by
  obtain ⟨na, oa⟩ := a
  obtain ⟨nb, ob⟩ := b
  have hab' : ¬ na = nb := hab
  have hst : ∀ v w k,
      MetricMap.find (MetricMap.store (MetricMap.store m nb w) na v) k =
        MetricMap.find (MetricMap.store (MetricMap.store m na v) nb w) k := by
    intro v w k
    simp only [find_store]
    by_cases h1 : na = k
    · have h2 : ¬ nb = k := fun h => hab' (h1.trans h.symm)
      simp [h1, h2]
    · simp [h1]
  by_cases hv : r.IsValid = 1
  · simp only [rangeNames, hv, if_true]
    cases r.Data[oa]? <;> cases r.Data[oa + 1]? <;> cases r.Data[ob]? <;>
      cases r.Data[ob + 1]? <;> first | exact True.intro | exact rangeNames_congr r _ _ _ (hst _ _)
  · simp only [rangeNames, hv, if_false]
    exact rangeNames_congr r _ _ _ (hst _ _)

/-- Go visits the entries of the table `names` in an unspecified order; whichever order is
taken, the loop stops with the same runtime error or builds a map with the same lookups. -/
theorem rangeNames_perm (r : IpmiResponse) (names names' : List (String × Nat))
    (hp : names.Perm names') :
    (names.map Prod.fst).Nodup →
      ∀ m, SameResult (rangeNames r names m) (rangeNames r names' m) := by
  induction hp with
  | nil => intro _ m; exact SameResult_refl _
  | cons e _ ih =>
    intro hnd m
    obtain ⟨name, o⟩ := e
    have hnd' := (List.nodup_cons.1 hnd).2
    by_cases hv : r.IsValid = 1
    · simp only [rangeNames, hv, if_true]
      cases r.Data[o]? with
      | none => exact True.intro
      | some lo =>
        cases r.Data[o + 1]? with
        | none => exact True.intro
        | some hi => exact ih hnd' _
    · simp only [rangeNames, hv, if_false]
      exact ih hnd' _
  | swap a b l =>
    intro hnd m
    have hne : a.1 ≠ b.1 := by
      intro h
      have h1 := (List.nodup_cons.1 hnd).1
      apply h1
      simp [h]
    exact rangeNames_swap r a b l m hne
  | trans hp1 _ ih1 ih2 =>
    intro hnd m
    have hnd2 := (hp1.map Prod.fst).nodup_iff.1 hnd
    exact SameResult_trans _ _ _ (ih1 hnd m) (ih2 hnd2 m)

/-! ## Shape of the temperature decoder's result -/

theorem ParserTemp_shape (r : IpmiResponse) (m : MetricMap) (h : ParserTemp.Parse r = some m) :
    ∃ (a b c d : Nat) (f : Nat → Nat),
      m = [("cpu/cpu0", a), ("cpu/cpu1", b), ("cpu/cpu2", c), ("cpu/cpu3", d)] ++
        (List.range' 8 (r.Data.length - 8)).map (fun i => (dimmName (i - 8), f i)) := by
  by_cases hv : r.IsValid = 1
  · by_cases hn : 8 ≤ r.Data.length
    · rw [ParserTemp_valid_eq r hv hn] at h
      exact ⟨_, _, _, _, fun i => (r.Data.getD i 0).val, (Option.some.inj h).symm⟩
    · rw [ParserTemp_valid_short r hv (by omega)] at h
      exact Option.noConfusion h
  · rw [ParserTemp_invalid_eq r hv] at h
    exact ⟨_, _, _, _, fun _ => 0xFFFF, (Option.some.inj h).symm⟩

theorem temp_keys_iff (a b c d n : Nat) (f : Nat → Nat) (k : String) :
    k ∈ MetricMap.keys ([("cpu/cpu0", a), ("cpu/cpu1", b), ("cpu/cpu2", c), ("cpu/cpu3", d)] ++
        (List.range' 8 n).map (fun i => (dimmName (i - 8), f i))) ↔
      k ∈ ["cpu/cpu0", "cpu/cpu1", "cpu/cpu2", "cpu/cpu3"] ∨ ∃ I, I < n ∧ k = dimmName I := by
  rw [keys_append, keys_dimm_entries, List.mem_append]
  simp only [MetricMap.keys, List.map_cons, List.map_nil, List.mem_map, List.mem_range]
  constructor
  · rintro (h | ⟨I, hI, rfl⟩)
    · exact Or.inl h
    · exact Or.inr ⟨I, hI, rfl⟩
  · rintro (h | ⟨I, hI, rfl⟩)
    · exact Or.inl h
    · exact Or.inr ⟨I, hI, rfl⟩

theorem temp_length (a b c d n : Nat) (f : Nat → Nat) :
    ([("cpu/cpu0", a), ("cpu/cpu1", b), ("cpu/cpu2", c), ("cpu/cpu3", d)] ++
        (List.range' 8 n).map (fun i => (dimmName (i - 8), f i))).length = 4 + n := by
  simp only [List.length_append, List.length_cons, List.length_nil, List.length_map,
    List.length_range']

theorem temp_find_dimm (a b c d n : Nat) (f : Nat → Nat) (I : Nat) :
    MetricMap.find ([("cpu/cpu0", a), ("cpu/cpu1", b), ("cpu/cpu2", c), ("cpu/cpu3", d)] ++
        (List.range' 8 n).map (fun i => (dimmName (i - 8), f i))) (dimmName I) =
      if I < n then some (f (I + 8)) else none := by
  rw [find_append_of_not_mem _ _ _ (dimmName_not_cpu I a b c d), find_dimm_entries f n 8 I (le_refl 8)]
  by_cases h : I < n
  · rw [if_pos h, if_pos (by omega)]
  · rw [if_neg h, if_neg (by omega)]

theorem temp_find_cpu (a b c d : Nat) (rest : MetricMap) :
    MetricMap.find ([("cpu/cpu0", a), ("cpu/cpu1", b), ("cpu/cpu2", c), ("cpu/cpu3", d)] ++ rest)
        "cpu/cpu0" = some a ∧
    MetricMap.find ([("cpu/cpu0", a), ("cpu/cpu1", b), ("cpu/cpu2", c), ("cpu/cpu3", d)] ++ rest)
        "cpu/cpu1" = some b ∧
    MetricMap.find ([("cpu/cpu0", a), ("cpu/cpu1", b), ("cpu/cpu2", c), ("cpu/cpu3", d)] ++ rest)
        "cpu/cpu2" = some c ∧
    MetricMap.find ([("cpu/cpu0", a), ("cpu/cpu1", b), ("cpu/cpu2", c), ("cpu/cpu3", d)] ++ rest)
        "cpu/cpu3" = some d := by
  simp [MetricMap.find]

theorem temp_keys_nodup (a b c d n : Nat) (f : Nat → Nat) :
    (MetricMap.keys ([("cpu/cpu0", a), ("cpu/cpu1", b), ("cpu/cpu2", c), ("cpu/cpu3", d)] ++
        (List.range' 8 n).map (fun i => (dimmName (i - 8), f i)))).Nodup := by
  rw [keys_append, keys_dimm_entries, List.nodup_append]
  refine ⟨by simp [MetricMap.keys], ?_, ?_⟩
  · exact (List.nodup_range n).map (fun x y h => dimmName_injective x y h)
  · intro k hk hk2
    obtain ⟨I, _, rfl⟩ := List.mem_map.1 hk2
    exact dimmName_not_cpu I a b c d hk

theorem temp_keys_declared_iff (a b c d n : Nat) (f : Nat → Nat) :
    (∀ k, k ∈ MetricMap.keys ([("cpu/cpu0", a), ("cpu/cpu1", b), ("cpu/cpu2", c), ("cpu/cpu3", d)]
        ++ (List.range' 8 n).map (fun i => (dimmName (i - 8), f i))) ↔ k ∈ ParserTemp.GetMetrics)
      ↔ n = 64 := by
  have hdecl : ∀ k, k ∈ ParserTemp.GetMetrics ↔
      k ∈ ["cpu/cpu0", "cpu/cpu1", "cpu/cpu2", "cpu/cpu3"] ∨ ∃ I, I < 64 ∧ k = dimmName I := by
    intro k
    unfold ParserTemp.GetMetrics
    rw [List.mem_append, List.mem_map]
    constructor
    · rintro (h | ⟨I, hI, rfl⟩)
      · exact Or.inl h
      · exact Or.inr ⟨I, List.mem_range.1 hI, rfl⟩
    · rintro (h | ⟨I, hI, rfl⟩)
      · exact Or.inl h
      · exact Or.inr ⟨I, List.mem_range.2 hI, rfl⟩
  have hcpu : ∀ I, dimmName I ∉ ["cpu/cpu0", "cpu/cpu1", "cpu/cpu2", "cpu/cpu3"] :=
    fun I => dimmName_not_cpu I 0 0 0 0
  constructor
  · intro h
    by_contra hne
    rcases Nat.lt_or_gt_of_ne hne with hlt | hgt
    · have h1 : dimmName n ∈ ParserTemp.GetMetrics := (hdecl _).2 (Or.inr ⟨n, hlt, rfl⟩)
      rcases (temp_keys_iff a b c d n f _).1 ((h _).2 h1) with h2 | ⟨I, hI, h2⟩
      · exact hcpu n h2
      · have := dimmName_injective _ _ h2
        omega
    · have h1 := (h (dimmName 64)).1 ((temp_keys_iff a b c d n f _).2 (Or.inr ⟨64, hgt, rfl⟩))
      rcases (hdecl _).1 h1 with h2 | ⟨I, hI, h2⟩
      · exact hcpu 64 h2
      · have := dimmName_injective _ _ h2
        omega
  · intro hn k
    rw [temp_keys_iff, hdecl, hn]

/-! ## Key lists of the fixed-layout decoders, and the decode step -/

theorem ParserNodeManager_keys (r : IpmiResponse) (m : MetricMap)
    (h : ParserNodeManager.Parse r = some m) : MetricMap.keys m = ["", "min", "max", "avg"] := by
  by_cases hv : r.IsValid = 1
  · have hn : 12 ≤ r.Data.length := (ParserNodeManager_valid_isSome r hv).1 (by rw [h]; rfl)
    rw [ParserNodeManager_valid_eq r hv hn] at h
    rw [← Option.some.inj h]
    rfl
  · rw [ParserNodeManager_invalid_eq r hv] at h
    rw [← Option.some.inj h]
    rfl

theorem ParserPMBus_keys (r : IpmiResponse) (m : MetricMap)
    (h : ParserPMBus.Parse r = some m) :
    MetricMap.keys m = ["VR0", "VR1", "VR2", "VR3", "VR4", "VR5"] := by
  by_cases hv : r.IsValid = 1
  · have hn : 16 ≤ r.Data.length := (ParserPMBus_valid_isSome r hv).1 (by rw [h]; rfl)
    rw [ParserPMBus_valid_eq r hv hn] at h
    rw [← Option.some.inj h]
    rfl
  · rw [ParserPMBus_invalid_eq r hv] at h
    rw [← Option.some.inj h]
    rfl

theorem ParserCUPS_keys (r : IpmiResponse) (m : MetricMap)
    (h : ParserCUPS.Parse r = some m) :
    MetricMap.keys m = ["cpu_state", "memory_bandwith", "io_bandwith"] := by
  by_cases hv : r.IsValid = 1
  · have hn : 10 ≤ r.Data.length := (ParserCUPS_valid_isSome r hv).1 (by rw [h]; rfl)
    rw [ParserCUPS_valid_eq r hv hn] at h
    rw [← Option.some.inj h]
    rfl
  · rw [ParserCUPS_invalid_eq r hv] at h
    rw [← Option.some.inj h]
    rfl

theorem ParserPECI_keys (r : IpmiResponse) (m : MetricMap)
    (h : ParserPECI.Parse r = some m) : MetricMap.keys m = ["margin_offset", ""] := by
  by_cases hv : r.IsValid = 1
  · by_cases hn : 9 ≤ r.Data.length
    · rw [ParserPECI_valid_eq r hv hn] at h
      rw [← Option.some.inj h]
      rfl
    · rw [ParserPECI_valid_short r hv (by omega)] at h
      exact Option.noConfusion h
  · rw [ParserPECI_invalid_eq r hv] at h
    rw [← Option.some.inj h]
    rfl

theorem ParserSR_keys (r : IpmiResponse) (m : MetricMap)
    (h : ParserSR.Parse r = some m) : MetricMap.keys m = [""] := by
  by_cases hn : 2 ≤ r.Data.length
  · rw [ParserSR_eq r hn] at h
    rw [← Option.some.inj h]
    rfl
  · rw [ParserSR_short r (by omega)] at h
    exact Option.noConfusion h

theorem Validate_none_flag (r : IpmiResponse) (h : GenericValidator.Validate r = none) :
    r.IsValid = 1 := by
  by_contra hv
  simp [GenericValidator.Validate, hv] at h

theorem decodeStep_pass (f : ParserFormat) (r : IpmiResponse)
    (h : GenericValidator.Validate r = none) : decodeStep f r = f.Parse r := by
  simp [decodeStep, ParserFormat.Validate, h]

theorem decodeStep_fail (f : ParserFormat) (r : IpmiResponse)
    (h : GenericValidator.Validate r ≠ none) :
    decodeStep f r = f.Parse { r with IsValid := 0 } := by
  have h1 : (GenericValidator.Validate r).isSome = true := by
    cases hx : GenericValidator.Validate r with
    | none => exact absurd hx h
    | some e => rfl
  simp [decodeStep, ParserFormat.Validate, h1]

/-! ## Claims -/

/-- Claim C1: `GenericValidator.Validate` returns no error exactly when `IsValid` is the
succeeded value `1`, the payload is not empty and its byte 0 is zero. -/
theorem Validate_nil_iff (r : IpmiResponse) :
    GenericValidator.Validate r = none ↔
      r.IsValid = 1 ∧ 0 < r.Data.length ∧ r.Data[0]? = some 0 := by
  unfold GenericValidator.Validate
  by_cases hv : r.IsValid = 1
  · cases hd : r.Data with
    | nil => simp [hv]
    | cons c rest =>
      by_cases hc : c = 0
      · simp [hv, hc]
      · simp [hv, hc]
  · simp [hv]

/-- Claim C2: `Validate` reports the first failing check: a flag other than `1` gives the
communication error whatever the payload is; otherwise an empty payload gives the
empty-response error; otherwise a non-zero byte 0 gives the device error carrying that byte. -/
theorem Validate_first_failing_check (r : IpmiResponse) :
    (r.IsValid ≠ 1 → GenericValidator.Validate r = some ValidateError.notValid) ∧
    (r.IsValid = 1 → r.Data.length = 0 →
      GenericValidator.Validate r = some ValidateError.zeroLength) ∧
    (∀ c : Byte, r.IsValid = 1 → r.Data[0]? = some c → c ≠ 0 →
      GenericValidator.Validate r = some (ValidateError.unexpectedCode c)) := by
  unfold GenericValidator.Validate
  refine ⟨?_, ?_, ?_⟩
  · intro hv
    simp [hv]
  · intro hv hd
    simp [hv, hd]
  · intro c hv hc hne
    cases hd : r.Data with
    | nil => rw [hd] at hc; simp at hc
    | cons c' rest =>
      rw [hd] at hc
      simp only [List.getElem?_cons_zero, Option.some.injEq] at hc
      subst hc
      simp [hv, hne]

/-- Witness of claim C2: a failed flag with a well-formed payload, a succeeded empty payload,
and the payload `[5, 1]`, whose error reports code 5. -/
theorem Validate_first_failing_check_witness :
    GenericValidator.Validate ⟨[0, 1], 0, "", 0⟩ = some ValidateError.notValid ∧
    GenericValidator.Validate ⟨[], 1, "", 0⟩ = some ValidateError.zeroLength ∧
    GenericValidator.Validate ⟨[5, 1], 1, "", 0⟩ = some (ValidateError.unexpectedCode 5) ∧
    (ValidateError.unexpectedCode 5).Error = "Unexpected error code : 5" :=
  ⟨(Validate_first_failing_check ⟨[0, 1], 0, "", 0⟩).1 (by decide),
   (Validate_first_failing_check ⟨[], 1, "", 0⟩).2.1 rfl rfl,
   (Validate_first_failing_check ⟨[5, 1], 1, "", 0⟩).2.2 5 rfl rfl (by decide),
   by decide⟩

/-- Counterexample to claim C3 as stated: the sensor-reading decoder has no validity branch, so
a failed response `[0, 5]` gives its one declared metric the value 5; the temperature decoder
names DIMM entries after the payload length, so a failed empty response has no entry for the
declared metric `memory/dimm0`. -/
theorem failed_response_sentinel_counterexample :
    (("" ∈ ParserSR.GetMetrics) ∧
      ParserSR.Parse ⟨[0, 5], 0, "", 0⟩ = some [("", 5)] ∧
      MetricMap.find [("", 5)] "" ≠ some 0xFFFF) ∧
    (("memory/dimm0" ∈ ParserTemp.GetMetrics) ∧
      ParserTemp.Parse ⟨[], 0, "", 0⟩ = some
        [("cpu/cpu0", 0xFFFF), ("cpu/cpu1", 0xFFFF), ("cpu/cpu2", 0xFFFF), ("cpu/cpu3", 0xFFFF)] ∧
      MetricMap.find
        [("cpu/cpu0", 0xFFFF), ("cpu/cpu1", 0xFFFF), ("cpu/cpu2", 0xFFFF), ("cpu/cpu3", 0xFFFF)]
        "memory/dimm0" = none) := by
  decide

/-- Claim C3, amended: for a response whose `IsValid` is not `1`, whatever its payload, the
NodeManager, PECI and PMBus decoders map every declared metric name to `0xFFFF`; the CUPS
decoder maps `memory_bandwith` and `io_bandwith` to `0xFFFF`; the temperature decoder maps the
four socket names to `0xFFFF` and `memory/dimmI` to `0xFFFF` exactly for `I < len(Data) - 8`. -/
theorem failed_response_sentinel (r : IpmiResponse) (hv : r.IsValid ≠ 1) :
    (∃ m, ParserNodeManager.Parse r = some m ∧
      ∀ name ∈ ParserNodeManager.GetMetrics, MetricMap.find m name = some 0xFFFF) ∧
    (∃ m, ParserPECI.Parse r = some m ∧
      ∀ name ∈ ParserPECI.GetMetrics, MetricMap.find m name = some 0xFFFF) ∧
    (∃ m, ParserPMBus.Parse r = some m ∧
      ∀ name ∈ ParserPMBus.GetMetrics, MetricMap.find m name = some 0xFFFF) ∧
    (∃ m, ParserCUPS.Parse r = some m ∧
      MetricMap.find m "memory_bandwith" = some 0xFFFF ∧
      MetricMap.find m "io_bandwith" = some 0xFFFF) ∧
    (∃ m, ParserTemp.Parse r = some m ∧
      (∀ name ∈ ["cpu/cpu0", "cpu/cpu1", "cpu/cpu2", "cpu/cpu3"],
        MetricMap.find m name = some 0xFFFF) ∧
      ∀ I : Nat, MetricMap.find m (dimmName I) =
        if I < r.Data.length - 8 then some 0xFFFF else none) := by
  refine ⟨⟨_, ParserNodeManager_invalid_eq r hv, ?_⟩, ⟨_, ParserPECI_invalid_eq r hv, ?_⟩,
    ⟨_, ParserPMBus_invalid_eq r hv, ?_⟩, ⟨_, ParserCUPS_invalid_eq r hv, ?_, ?_⟩,
    ⟨_, ParserTemp_invalid_eq r hv, ?_, ?_⟩⟩
  · simp [ParserNodeManager.GetMetrics, MetricMap.find]
  · simp [ParserPECI.GetMetrics, MetricMap.find]
  · simp [ParserPMBus.GetMetrics, MetricMap.find]
  · simp [MetricMap.find]
  · simp [MetricMap.find]
  · have h := temp_find_cpu 0xFFFF 0xFFFF 0xFFFF 0xFFFF
      ((List.range' 8 (r.Data.length - 8)).map (fun i => (dimmName (i - 8), 0xFFFF)))
    intro name hname
    simp only [List.mem_cons, List.mem_singleton, List.not_mem_nil, or_false] at hname
    rcases hname with rfl | rfl | rfl | rfl
    · exact h.1
    · exact h.2.1
    · exact h.2.2.1
    · exact h.2.2.2
  · intro I
    exact temp_find_dimm _ _ _ _ _ (fun _ => 0xFFFF) I

/-- Witness of claim C3, amended: a failed response of ten bytes. -/
theorem failed_response_sentinel_witness :
    ∃ m, ParserTemp.Parse ⟨[0, 1, 2, 3, 4, 5, 6, 7, 8, 9], 0, "", 0⟩ = some m ∧
      MetricMap.find m "cpu/cpu0" = some 0xFFFF ∧
      MetricMap.find m (dimmName 1) = some 0xFFFF ∧
      MetricMap.find m (dimmName 2) = none := by
  obtain ⟨m, hm, hc, hd⟩ :=
    (failed_response_sentinel ⟨[0, 1, 2, 3, 4, 5, 6, 7, 8, 9], 0, "", 0⟩ (by decide)).2.2.2.2
  exact ⟨m, hm, hc _ (by decide), (hd 1).trans (by decide), (hd 2).trans (by decide)⟩

/-- Counterexample to claim C4 as stated: a valid temperature response of eight bytes is
decoded to four entries, while the decoder declares 68 names, `memory/dimm0` among them. -/
theorem Parse_keys_counterexample :
    ParserTemp.Parse ⟨[0, 0, 0, 0, 10, 20, 30, 40], 1, "", 0⟩ = some
      [("cpu/cpu0", 10), ("cpu/cpu1", 20), ("cpu/cpu2", 30), ("cpu/cpu3", 40)] ∧
    [("cpu/cpu0", 10), ("cpu/cpu1", 20), ("cpu/cpu2", 30), ("cpu/cpu3", 40)].length = 4 ∧
    ParserTemp.GetMetrics.length = 68 ∧
    ("memory/dimm0" ∈ ParserTemp.GetMetrics) ∧
    ("memory/dimm0" ∉ MetricMap.keys
      [("cpu/cpu0", 10), ("cpu/cpu1", 20), ("cpu/cpu2", 30), ("cpu/cpu3", 40)]) := by
  decide

/-- Claim C4, amended: whenever `Parse` returns a map, for the NodeManager, PECI, PMBus and
sensor-reading decoders its key set is the set of declared names and it has as many entries as
names are declared; for the CUPS decoder it has as many entries as names are declared; for the
temperature decoder its keys are the four socket names and `memory/dimmI` for
`I < len(Data) - 8`, it has `4 + (len(Data) - 8)` entries, and its key set is the declared one
exactly when the payload has 72 bytes. -/
theorem Parse_keys (r : IpmiResponse) (m : MetricMap) :
    (ParserNodeManager.Parse r = some m →
      (∀ k, k ∈ MetricMap.keys m ↔ k ∈ ParserNodeManager.GetMetrics) ∧
      m.length = ParserNodeManager.GetMetrics.length) ∧
    (ParserPECI.Parse r = some m →
      (∀ k, k ∈ MetricMap.keys m ↔ k ∈ ParserPECI.GetMetrics) ∧
      m.length = ParserPECI.GetMetrics.length) ∧
    (ParserPMBus.Parse r = some m →
      (∀ k, k ∈ MetricMap.keys m ↔ k ∈ ParserPMBus.GetMetrics) ∧
      m.length = ParserPMBus.GetMetrics.length) ∧
    (ParserSR.Parse r = some m →
      (∀ k, k ∈ MetricMap.keys m ↔ k ∈ ParserSR.GetMetrics) ∧
      m.length = ParserSR.GetMetrics.length) ∧
    (ParserCUPS.Parse r = some m → m.length = ParserCUPS.GetMetrics.length) ∧
    (ParserTemp.Parse r = some m →
      (∀ k, k ∈ MetricMap.keys m ↔
        k ∈ ["cpu/cpu0", "cpu/cpu1", "cpu/cpu2", "cpu/cpu3"] ∨
        ∃ I, I < r.Data.length - 8 ∧ k = dimmName I) ∧
      m.length = 4 + (r.Data.length - 8) ∧
      ((∀ k, k ∈ MetricMap.keys m ↔ k ∈ ParserTemp.GetMetrics) ↔ r.Data.length = 72)) := by
  have hlen : ∀ l : List String, MetricMap.keys m = l → m.length = l.length := by
    intro l hl
    rw [← hl, MetricMap.keys, List.length_map]
  refine ⟨?_, ?_, ?_, ?_, ?_, ?_⟩
  · intro h
    have hk := ParserNodeManager_keys r m h
    exact ⟨fun k => by rw [hk]; rfl, hlen _ hk⟩
  · intro h
    have hk := ParserPECI_keys r m h
    refine ⟨fun k => ?_, hlen ["margin_offset", ""] hk⟩
    rw [hk]
    simp only [ParserPECI.GetMetrics, List.mem_cons, List.mem_singleton, List.not_mem_nil,
      or_false]
    exact or_comm
  · intro h
    have hk := ParserPMBus_keys r m h
    exact ⟨fun k => by rw [hk]; rfl, hlen _ hk⟩
  · intro h
    have hk := ParserSR_keys r m h
    exact ⟨fun k => by rw [hk]; rfl, hlen _ hk⟩
  · intro h
    exact hlen ["cpu_state", "memory_bandwith", "io_bandwith"] (ParserCUPS_keys r m h)
  · intro h
    obtain ⟨a, b, c, d, f, rfl⟩ := ParserTemp_shape r m h
    refine ⟨fun k => temp_keys_iff a b c d _ f k, temp_length a b c d _ f, ?_⟩
    rw [temp_keys_declared_iff]
    omega

/-- Witness of claim C4, amended: a valid NodeManager response of twelve bytes and a valid
temperature response of eleven bytes. -/
theorem Parse_keys_witness :
    [("", 1), ("min", 2), ("max", 3), ("avg", 4)].length = ParserNodeManager.GetMetrics.length ∧
    [("cpu/cpu0", 10), ("cpu/cpu1", 20), ("cpu/cpu2", 30), ("cpu/cpu3", 40),
      ("memory/dimm0", 5), ("memory/dimm1", 6), ("memory/dimm2", 7)].length = 4 + (11 - 8) :=
  ⟨((Parse_keys ⟨[0, 0, 0, 0, 1, 0, 2, 0, 3, 0, 4, 0], 1, "", 0⟩
      [("", 1), ("min", 2), ("max", 3), ("avg", 4)]).1 (by decide)).2,
   ((Parse_keys ⟨[0, 0, 0, 0, 10, 20, 30, 40, 5, 6, 7], 1, "", 0⟩
      [("cpu/cpu0", 10), ("cpu/cpu1", 20), ("cpu/cpu2", 30), ("cpu/cpu3", 40),
        ("memory/dimm0", 5), ("memory/dimm1", 6), ("memory/dimm2", 7)]).2.2.2.2.2
      (by decide)).2.1⟩

/-- Counterexample to claim C5 as stated: the valid response `[0]` passes `Validate`, and the
CUPS decoder then reads index 4 of a one-byte payload; the failed empty response is still
read at index 1 by the sensor-reading decoder. -/
theorem decodeStep_in_bounds_counterexample :
    (GenericValidator.Validate ⟨[0], 1, "", 0⟩ = none ∧
      decodeStep ParserFormat.FormatCUPS ⟨[0], 1, "", 0⟩ = none) ∧
    (GenericValidator.Validate ⟨[], 0, "", 0⟩ = some ValidateError.notValid ∧
      decodeStep ParserFormat.FormatSR ⟨[], 0, "", 0⟩ = none) := by
  decide

/-- Claim C5, amended: the decode step (run `Validate`, set `IsValid` to 0 when it fails, call
`Parse`) reads no payload index out of range exactly in these cases: for the CUPS,
NodeManager, temperature, PECI and PMBus decoders, when `Validate` fails or the payload has at
least 10, 12, 8, 9 and 16 bytes respectively; for the sensor-reading decoder, when the payload
has at least 2 bytes. -/
theorem decodeStep_in_bounds_iff (r : IpmiResponse) :
    ((decodeStep ParserFormat.FormatCUPS r).isSome = true ↔
      GenericValidator.Validate r ≠ none ∨ 10 ≤ r.Data.length) ∧
    ((decodeStep ParserFormat.FormatNodeManager r).isSome = true ↔
      GenericValidator.Validate r ≠ none ∨ 12 ≤ r.Data.length) ∧
    ((decodeStep ParserFormat.FormatTemp r).isSome = true ↔
      GenericValidator.Validate r ≠ none ∨ 8 ≤ r.Data.length) ∧
    ((decodeStep ParserFormat.FormatPECI r).isSome = true ↔
      GenericValidator.Validate r ≠ none ∨ 9 ≤ r.Data.length) ∧
    ((decodeStep ParserFormat.FormatPMBus r).isSome = true ↔
      GenericValidator.Validate r ≠ none ∨ 16 ≤ r.Data.length) ∧
    ((decodeStep ParserFormat.FormatSR r).isSome = true ↔ 2 ≤ r.Data.length) := by
  have h0 : (0 : Nat) ≠ 1 := by decide
  by_cases hp : GenericValidator.Validate r = none
  · have hv := Validate_none_flag r hp
    simp only [decodeStep_pass _ r hp, hp, ne_eq, not_true_eq_false, false_or,
      ParserFormat.Parse]
    refine ⟨ParserCUPS_valid_isSome r hv, ParserNodeManager_valid_isSome r hv, ?_, ?_,
      ParserPMBus_valid_isSome r hv, ?_⟩
    · by_cases hn : 8 ≤ r.Data.length
      · simp [ParserTemp_valid_eq r hv hn, hn]
      · simp [ParserTemp_valid_short r hv (by omega), hn]
    · by_cases hn : 9 ≤ r.Data.length
      · simp [ParserPECI_valid_eq r hv hn, hn]
      · simp [ParserPECI_valid_short r hv (by omega), hn]
    · by_cases hn : 2 ≤ r.Data.length
      · simp [ParserSR_eq r hn, hn]
      · simp [ParserSR_short r (by omega), hn]
  · simp only [decodeStep_fail _ r hp, hp, ne_eq, not_false_eq_true, true_or, iff_true,
      ParserFormat.Parse]
    refine ⟨?_, ?_, ?_, ?_, ?_, ?_⟩
    · rw [ParserCUPS_invalid_eq _ h0]; rfl
    · rw [ParserNodeManager_invalid_eq _ h0]; rfl
    · rw [ParserTemp_invalid_eq _ h0]; rfl
    · rw [ParserPECI_invalid_eq _ h0]; rfl
    · rw [ParserPMBus_invalid_eq _ h0]; rfl
    · by_cases hn : 2 ≤ r.Data.length
      · have hn' : 2 ≤ ({ r with IsValid := 0 } : IpmiResponse).Data.length := hn
        simp [ParserSR_eq _ hn', hn]
      · have hn' : ({ r with IsValid := 0 } : IpmiResponse).Data.length < 2 := by
          show r.Data.length < 2
          omega
        simp [ParserSR_short _ hn', hn]

/-- Claim C6, evaluated at its own example: for the valid payload
`[0,0,0,0,0x34,0x12,0x01,0x00,0xFF,0x00]` the CUPS decoder stores the value 4660 under the key
`cpu_state`; the declared name `cpu_cstate` has no entry in the result. -/
theorem ParserCUPS_Parse_example :
    ParserCUPS.Parse ⟨[0, 0, 0, 0, 0x34, 0x12, 0x01, 0x00, 0xFF, 0x00], 1, "", 0⟩ = some
      [("cpu_state", 4660), ("memory_bandwith", 1), ("io_bandwith", 255)] ∧
    ("cpu_cstate" ∈ ParserCUPS.GetMetrics) ∧
    MetricMap.find [("cpu_state", 4660), ("memory_bandwith", 1), ("io_bandwith", 255)]
      "cpu_cstate" = none := by
  decide

/-- Claim C7: for a valid response of `n ≥ 8` bytes the temperature decoder returns a map that
sends `cpu/cpuK` to `Data[4+K]` for `K = 0..3` and `memory/dimmI` to `Data[8+I]` for every
`I < n - 8`, and that has exactly `4 + (n - 8)` entries, with distinct keys: the four socket
names and the DIMM names below `n - 8`. -/
theorem ParserTemp_Parse_valid (r : IpmiResponse) (hv : r.IsValid = 1)
    (hn : 8 ≤ r.Data.length) :
    ∃ m, ParserTemp.Parse r = some m ∧
      MetricMap.find m "cpu/cpu0" = some r.Data[4].val ∧
      MetricMap.find m "cpu/cpu1" = some r.Data[5].val ∧
      MetricMap.find m "cpu/cpu2" = some r.Data[6].val ∧
      MetricMap.find m "cpu/cpu3" = some r.Data[7].val ∧
      (∀ (I : Nat) (hI : I < r.Data.length - 8),
        MetricMap.find m (dimmName I) = some r.Data[8 + I].val) ∧
      m.length = 4 + (r.Data.length - 8) ∧
      (MetricMap.keys m).Nodup ∧
      (∀ k, k ∈ MetricMap.keys m ↔
        k ∈ ["cpu/cpu0", "cpu/cpu1", "cpu/cpu2", "cpu/cpu3"] ∨
        ∃ I, I < r.Data.length - 8 ∧ k = dimmName I) := by
  refine ⟨_, ParserTemp_valid_eq r hv hn, ?_, ?_, ?_, ?_, ?_, temp_length _ _ _ _ _ _,
    temp_keys_nodup _ _ _ _ _ (fun i => (r.Data.getD i 0).val),
    fun k => temp_keys_iff _ _ _ _ _ (fun i => (r.Data.getD i 0).val) k⟩
  · rw [(temp_find_cpu _ _ _ _ _).1, getD_eq_get]
  · rw [(temp_find_cpu _ _ _ _ _).2.1, getD_eq_get]
  · rw [(temp_find_cpu _ _ _ _ _).2.2.1, getD_eq_get]
  · rw [(temp_find_cpu _ _ _ _ _).2.2.2, getD_eq_get]
  · intro I hI
    rw [temp_find_dimm _ _ _ _ _ (fun i => (r.Data.getD i 0).val) I, if_pos hI]
    have h8 : 8 + I < r.Data.length := by omega
    simp only [Nat.add_comm I 8, getD_eq_get r.Data (8 + I) h8]

/-- Witness of claim C7: the payload `[_,_,_,_,10,20,30,40,5,6,7]` gives `cpu0..3` the values
10, 20, 30, 40 and `dimm0..2` the values 5, 6, 7, in a map of seven entries. -/
theorem ParserTemp_Parse_valid_witness :
    ∃ m, ParserTemp.Parse ⟨[0, 0, 0, 0, 10, 20, 30, 40, 5, 6, 7], 1, "", 0⟩ = some m ∧
      MetricMap.find m "cpu/cpu0" = some 10 ∧
      MetricMap.find m "cpu/cpu1" = some 20 ∧
      MetricMap.find m "cpu/cpu2" = some 30 ∧
      MetricMap.find m "cpu/cpu3" = some 40 ∧
      MetricMap.find m "memory/dimm0" = some 5 ∧
      MetricMap.find m "memory/dimm1" = some 6 ∧
      MetricMap.find m "memory/dimm2" = some 7 ∧
      m.length = 7 := by
  obtain ⟨m, hm, h0, h1, h2, h3, hd, hl, _, _⟩ :=
    ParserTemp_Parse_valid ⟨[0, 0, 0, 0, 10, 20, 30, 40, 5, 6, 7], 1, "", 0⟩ rfl (by decide)
  exact ⟨m, hm, h0, h1, h2, h3, hd 0 (by decide), hd 1 (by decide), hd 2 (by decide), hl⟩

/-- Claim C8: for a valid response of at least 12 bytes the NodeManager decoder returns exactly
the four declared metrics `""`, `min`, `max` and `avg`, equal to the little-endian 16-bit
values at payload offsets 4, 6, 8 and 10. -/
theorem ParserNodeManager_Parse_valid (r : IpmiResponse) (hv : r.IsValid = 1)
    (hn : 12 ≤ r.Data.length) :
    ∃ m, ParserNodeManager.Parse r = some m ∧
      (∀ k, k ∈ MetricMap.keys m ↔ k ∈ ParserNodeManager.GetMetrics) ∧
      m.length = 4 ∧
      MetricMap.find m "" = some (r.Data[4].val + 256 * r.Data[5].val) ∧
      MetricMap.find m "min" = some (r.Data[6].val + 256 * r.Data[7].val) ∧
      MetricMap.find m "max" = some (r.Data[8].val + 256 * r.Data[9].val) ∧
      MetricMap.find m "avg" = some (r.Data[10].val + 256 * r.Data[11].val) := by
  refine ⟨_, ParserNodeManager_valid_eq r hv hn, fun k => Iff.rfl, rfl, ?_, ?_, ?_, ?_⟩ <;>
    simp only [getD_eq_get r.Data _ (show 4 < r.Data.length by omega),
      getD_eq_get r.Data _ (show 5 < r.Data.length by omega),
      getD_eq_get r.Data _ (show 6 < r.Data.length by omega),
      getD_eq_get r.Data _ (show 7 < r.Data.length by omega),
      getD_eq_get r.Data _ (show 8 < r.Data.length by omega),
      getD_eq_get r.Data _ (show 9 < r.Data.length by omega),
      getD_eq_get r.Data _ (show 10 < r.Data.length by omega),
      getD_eq_get r.Data _ (show 11 < r.Data.length by omega)] <;>
    simp [MetricMap.find]

/-- Witness of claim C8: a valid payload of twelve bytes whose four words are 0x1234, 1, 255
and 0x0102. -/
theorem ParserNodeManager_Parse_valid_witness :
    ∃ m, ParserNodeManager.Parse
        ⟨[0, 0, 0, 0, 0x34, 0x12, 0x01, 0x00, 0xFF, 0x00, 0x02, 0x01], 1, "", 0⟩ = some m ∧
      m.length = 4 ∧
      MetricMap.find m "" = some 4660 ∧
      MetricMap.find m "min" = some 1 ∧
      MetricMap.find m "max" = some 255 ∧
      MetricMap.find m "avg" = some 258 := by
  obtain ⟨m, hm, _, hl, h0, h1, h2, h3⟩ := ParserNodeManager_Parse_valid
    ⟨[0, 0, 0, 0, 0x34, 0x12, 0x01, 0x00, 0xFF, 0x00, 0x02, 0x01], 1, "", 0⟩ rfl (by decide)
  exact ⟨m, hm, hl, h0, h1, h2, h3⟩

/-- Claim C9: for a valid response of at least 9 bytes the PECI decoder returns exactly the two
declared metrics: `margin_offset`, equal to the byte `Data[6]`, and `""`, equal to the
little-endian 16-bit value `Data[7] + 256 * Data[8]`. -/
theorem ParserPECI_Parse_valid (r : IpmiResponse) (hv : r.IsValid = 1)
    (hn : 9 ≤ r.Data.length) :
    ∃ m, ParserPECI.Parse r = some m ∧
      (∀ k, k ∈ MetricMap.keys m ↔ k ∈ ParserPECI.GetMetrics) ∧
      m.length = 2 ∧
      MetricMap.find m "margin_offset" = some r.Data[6].val ∧
      MetricMap.find m "" = some (r.Data[7].val + 256 * r.Data[8].val) := by
  refine ⟨_, ParserPECI_valid_eq r hv hn, fun k => ?_, rfl, ?_, ?_⟩
  · simp only [MetricMap.keys, ParserPECI.GetMetrics, List.map_cons, List.map_nil,
      List.mem_cons, List.mem_singleton, List.not_mem_nil, or_false]
    exact or_comm
  · rw [getD_eq_get r.Data 6 (by omega)]
    simp [MetricMap.find]
  · rw [getD_eq_get r.Data 7 (by omega), getD_eq_get r.Data 8 (by omega)]
    simp [MetricMap.find]

/-- Witness of claim C9: a valid payload of nine bytes with margin offset 7 and TJmax 0x0164. -/
theorem ParserPECI_Parse_valid_witness :
    ∃ m, ParserPECI.Parse ⟨[0, 0, 0, 0, 0, 0, 7, 0x64, 0x01], 1, "", 0⟩ = some m ∧
      m.length = 2 ∧
      MetricMap.find m "margin_offset" = some 7 ∧
      MetricMap.find m "" = some 356 := by
  obtain ⟨m, hm, _, hl, h0, h1⟩ :=
    ParserPECI_Parse_valid ⟨[0, 0, 0, 0, 0, 0, 7, 0x64, 0x01], 1, "", 0⟩ rfl (by decide)
  exact ⟨m, hm, hl, h0, h1⟩

/-- Claim C10: for a response of at least 2 bytes, whatever its `IsValid` flag, the
sensor-reading decoder returns the one-entry map sending `""` to the byte `Data[1]`, and
replacing the flag by any other value leaves the result unchanged. -/
theorem ParserSR_Parse_any (r : IpmiResponse) (hn : 2 ≤ r.Data.length) :
    ParserSR.Parse r = some [("", r.Data[1].val)] ∧
    MetricMap.keys [("", r.Data[1].val)] = ParserSR.GetMetrics ∧
    ∀ v : Nat, ParserSR.Parse { r with IsValid := v } = ParserSR.Parse r := by
  refine ⟨?_, rfl, fun v => rfl⟩
  rw [ParserSR_eq r hn, getD_eq_get r.Data 1 (by omega)]

/-- Witness of claim C10: the failed response `[0, 5]` and the valid response `[0, 5]` are both
decoded to the single entry `"" ↦ 5`. -/
theorem ParserSR_Parse_any_witness :
    ParserSR.Parse ⟨[0, 5], 0, "", 0⟩ = some [("", 5)] ∧
    ParserSR.Parse ⟨[0, 5], 1, "", 0⟩ = some [("", 5)] :=
  ⟨(ParserSR_Parse_any ⟨[0, 5], 0, "", 0⟩ (by decide)).1,
   (ParserSR_Parse_any ⟨[0, 5], 1, "", 0⟩ (by decide)).1⟩

/-! ## Values of the single-byte metrics, declared names of the temperature decoder -/

theorem mem_of_find (m : MetricMap) (k : String) (v : Nat) (h : MetricMap.find m k = some v) :
    (k, v) ∈ m := by
  induction m with
  | nil => exact Option.noConfusion h
  | cons e rest ih =>
    obtain ⟨k', v'⟩ := e
    by_cases hk : k' = k
    · simp only [MetricMap.find, hk, if_true, Option.some.injEq] at h
      simp [hk, h]
    · simp only [MetricMap.find, hk, if_false] at h
      exact List.mem_cons_of_mem _ (ih h)

theorem ParserTemp_valid_values (r : IpmiResponse) (m : MetricMap) (hv : r.IsValid = 1)
    (h : ParserTemp.Parse r = some m) (k : String) (v : Nat) (hm : (k, v) ∈ m) : v ≤ 255 := by
  by_cases hn : 8 ≤ r.Data.length
  · rw [ParserTemp_valid_eq r hv hn] at h
    rw [← Option.some.inj h] at hm
    have hb : ∀ i, (r.Data.getD i 0).val ≤ 255 := fun i => by
      have := (r.Data.getD i 0).isLt
      omega
    simp only [List.mem_append, List.mem_cons, List.mem_singleton, List.not_mem_nil, or_false,
      Prod.mk.injEq, List.mem_map] at hm
    rcases hm with (⟨_, rfl⟩ | ⟨_, rfl⟩ | ⟨_, rfl⟩ | ⟨_, rfl⟩) | ⟨i, _, _, rfl⟩ <;> exact hb _
  · rw [ParserTemp_valid_short r hv (by omega)] at h
    exact Option.noConfusion h

theorem temp_declared_iff (k : String) :
    k ∈ ParserTemp.GetMetrics ↔
      k ∈ ["cpu/cpu0", "cpu/cpu1", "cpu/cpu2", "cpu/cpu3"] ∨ ∃ I, I < 64 ∧ k = dimmName I := by
  unfold ParserTemp.GetMetrics
  rw [List.mem_append, List.mem_map]
  constructor
  · rintro (h | ⟨I, hI, rfl⟩)
    · exact Or.inl h
    · exact Or.inr ⟨I, List.mem_range.1 hI, rfl⟩
  · rintro (h | ⟨I, hI, rfl⟩)
    · exact Or.inl h
    · exact Or.inr ⟨I, List.mem_range.2 hI, rfl⟩

theorem dimmName_64_undeclared : dimmName 64 ∉ ParserTemp.GetMetrics := by
  intro h
  rcases (temp_declared_iff _).1 h with h1 | ⟨I, hI, h1⟩
  · exact dimmName_not_cpu 64 0 0 0 0 h1
  · have := dimmName_injective _ _ h1
    omega

/-! ## Claims on the out-of-band execution, the numeric range and the temperature keys -/

/-- Claim C15: the response of `RunParallelRequests` has the given host as `Source`, the given
index as `Index` and the output of the remote execution of `request.Data` against that host
as `Data`; two calls that return the same response were made for the same host and index. -/
theorem RunParallelRequests_identity
    (exec : List Byte → LinuxOutOfBand → String → List Byte) (al : LinuxOutOfBand)
    (request : IpmiRequest) (host : String) (index : Int) :
    (al.RunParallelRequests exec request host index).Source = host ∧
    (al.RunParallelRequests exec request host index).Index = index ∧
    (al.RunParallelRequests exec request host index).Data = exec request.Data al host ∧
    ∀ (al' : LinuxOutOfBand) (request' : IpmiRequest) (host' : String) (index' : Int),
      al'.RunParallelRequests exec request' host' index' =
        al.RunParallelRequests exec request host index → host' = host ∧ index' = index := by
  refine ⟨rfl, rfl, rfl, ?_⟩
  intro al' request' host' index' h
  exact ⟨congrArg IpmiResponse.Source h, congrArg IpmiResponse.Index h⟩

/-- Claim C19: the response of `RunParallelRequests` keeps `IsValid` at its zero value, so
`Validate` rejects it with the communication error, whatever the remote execution returned. -/
theorem RunParallelRequests_never_valid
    (exec : List Byte → LinuxOutOfBand → String → List Byte) (al : LinuxOutOfBand)
    (request : IpmiRequest) (host : String) (index : Int) :
    (al.RunParallelRequests exec request host index).IsValid = 0 ∧
    GenericValidator.Validate (al.RunParallelRequests exec request host index) =
      some ValidateError.notValid := by
  refine ⟨rfl, ?_⟩
  simp [GenericValidator.Validate, LinuxOutOfBand.RunParallelRequests]

/-- Claim C20: the reconstruction `uint16(lo) + uint16(hi) * 256` equals `lo + 256 * hi`, is at
most 65535, and is the sentinel `0xFFFF` exactly when both bytes are `0xFF`; every value the
temperature decoder gives for a valid response, the `margin_offset` of a valid PECI response
and the value of the sensor-reading decoder are at most 255, hence never the sentinel. -/
theorem word16_no_wrap :
    (∀ lo hi : Byte, word16 lo hi = lo.val + 256 * hi.val ∧ word16 lo hi ≤ 65535 ∧
      (word16 lo hi = 0xFFFF ↔ lo = 0xFF ∧ hi = 0xFF)) ∧
    (∀ (r : IpmiResponse) (m : MetricMap) (k : String) (v : Nat), r.IsValid = 1 →
      ParserTemp.Parse r = some m → MetricMap.find m k = some v → v ≤ 255 ∧ v ≠ 0xFFFF) ∧
    (∀ (r : IpmiResponse) (m : MetricMap) (v : Nat), r.IsValid = 1 →
      ParserPECI.Parse r = some m → MetricMap.find m "margin_offset" = some v →
      v ≤ 255 ∧ v ≠ 0xFFFF) ∧
    (∀ (r : IpmiResponse) (m : MetricMap) (v : Nat),
      ParserSR.Parse r = some m → MetricMap.find m "" = some v → v ≤ 255 ∧ v ≠ 0xFFFF) := by
  have hsmall : ∀ v : Nat, v ≤ 255 → v ≤ 255 ∧ v ≠ 0xFFFF := fun v hv => ⟨hv, by omega⟩
  refine ⟨?_, ?_, ?_, ?_⟩
  · intro lo hi
    have h1 := lo.isLt
    have h2 := hi.isLt
    rw [word16_eq]
    refine ⟨rfl, by omega, ?_⟩
    constructor
    · intro h
      exact ⟨Fin.ext (by show lo.val = 255; omega), Fin.ext (by show hi.val = 255; omega)⟩
    · rintro ⟨rfl, rfl⟩
      rfl
  · intro r m k v hv h hf
    exact hsmall v (ParserTemp_valid_values r m hv h k v (mem_of_find m k v hf))
  · intro r m v hv h hf
    apply hsmall
    by_cases hn : 9 ≤ r.Data.length
    · rw [ParserPECI_valid_eq r hv hn] at h
      rw [← Option.some.inj h] at hf
      simp only [MetricMap.find, if_true, Option.some.injEq] at hf
      have := (r.Data.getD 6 0).isLt
      omega
    · rw [ParserPECI_valid_short r hv (by omega)] at h
      exact Option.noConfusion h
  · intro r m v h hf
    apply hsmall
    by_cases hn : 2 ≤ r.Data.length
    · rw [ParserSR_eq r hn] at h
      rw [← Option.some.inj h] at hf
      simp only [MetricMap.find, if_true, Option.some.injEq] at hf
      have := (r.Data.getD 1 0).isLt
      omega
    · rw [ParserSR_short r (by omega)] at h
      exact Option.noConfusion h

/-- Witness of claim C20: the bytes `0xFF, 0xFF` give the sentinel, the bytes `0x34, 0x12` give
4660, and the valid sensor reading `[0, 200]` gives 200. -/
theorem word16_no_wrap_witness :
    word16 0xFF 0xFF = 0xFFFF ∧ word16 0x34 0x12 = 0x34 + 256 * 0x12 ∧
    ((200 : Nat) ≤ 255 ∧ (200 : Nat) ≠ 0xFFFF) :=
  ⟨((word16_no_wrap.1 0xFF 0xFF).2.2).2 ⟨rfl, rfl⟩, (word16_no_wrap.1 0x34 0x12).1,
   word16_no_wrap.2.2.2 ⟨[0, 200], 1, "", 0⟩ [("", 200)] 200 (by decide) (by decide)⟩

/-- Counterexample to claim C17 as stated: a valid payload of 73 bytes is decoded to a map that
holds the key `memory/dimm64`, which is not among the 68 declared names. -/
theorem ParserTemp_keys_declared_counterexample :
    ((ParserTemp.Parse ⟨List.replicate 73 0, 1, "", 0⟩).map
      (fun m => MetricMap.find m "memory/dimm64")) = some (some 0) ∧
    ("memory/dimm64" ∉ ParserTemp.GetMetrics) := by
  decide

/-- Claim C17, amended: the keys of `ParserTemp.Parse(r)` are the four socket names and
`memory/dimmI` for `I < len(Data) - 8`; they are all among the 68 declared names exactly when
the payload has at most 72 bytes. -/
theorem ParserTemp_keys_declared_iff (r : IpmiResponse) (m : MetricMap)
    (h : ParserTemp.Parse r = some m) :
    (∀ k, k ∈ MetricMap.keys m ↔
      k ∈ ["cpu/cpu0", "cpu/cpu1", "cpu/cpu2", "cpu/cpu3"] ∨
      ∃ I, I < r.Data.length - 8 ∧ k = dimmName I) ∧
    ((∀ k ∈ MetricMap.keys m, k ∈ ParserTemp.GetMetrics) ↔ r.Data.length ≤ 72) := by
  obtain ⟨a, b, c, d, f, rfl⟩ := ParserTemp_shape r m h
  refine ⟨fun k => temp_keys_iff a b c d _ f k, ?_, ?_⟩
  · intro hall
    by_contra hlen
    have h64 : dimmName 64 ∈ MetricMap.keys
        ([("cpu/cpu0", a), ("cpu/cpu1", b), ("cpu/cpu2", c), ("cpu/cpu3", d)] ++
          (List.range' 8 (r.Data.length - 8)).map (fun i => (dimmName (i - 8), f i))) :=
      (temp_keys_iff a b c d _ f _).2 (Or.inr ⟨64, by omega, rfl⟩)
    exact dimmName_64_undeclared (hall _ h64)
  · intro hlen k hk
    rcases (temp_keys_iff a b c d _ f k).1 hk with h1 | ⟨I, hI, rfl⟩
    · exact (temp_declared_iff k).2 (Or.inl h1)
    · exact (temp_declared_iff _).2 (Or.inr ⟨I, by omega, rfl⟩)

/-- Witness of claim C17, amended: the eleven-byte payload of the specification's example;
its last key, `memory/dimm2`, is declared. -/
theorem ParserTemp_keys_declared_iff_witness :
    ParserTemp.Parse ⟨[0, 0, 0, 0, 10, 20, 30, 40, 5, 6, 7], 1, "", 0⟩ = some
      [("cpu/cpu0", 10), ("cpu/cpu1", 20), ("cpu/cpu2", 30), ("cpu/cpu3", 40),
        ("memory/dimm0", 5), ("memory/dimm1", 6), ("memory/dimm2", 7)] ∧
    ("memory/dimm2" ∈ ParserTemp.GetMetrics) :=
  ⟨by decide,
   (ParserTemp_keys_declared_iff ⟨[0, 0, 0, 0, 10, 20, 30, 40, 5, 6, 7], 1, "", 0⟩
    [("cpu/cpu0", 10), ("cpu/cpu1", 20), ("cpu/cpu2", 30), ("cpu/cpu3", 40),
      ("memory/dimm0", 5), ("memory/dimm1", 6), ("memory/dimm2", 7)] (by decide)).2.2
    (by decide) "memory/dimm2" (by decide)⟩

/-! ## The grouping loop of `CollectMetrics` -/

theorem groupCatalog_inv (Vendor : String → List RequestDescription) (ns host : String) :
    ∀ (l : List RequestDescription) (g : Grouping), (∀ rq ∈ l, rq ∈ Vendor host) →
      GroupingInv Vendor g → GroupingInv Vendor (groupCatalog ns host l g) := by
  intro l
  induction l with
  | nil => intro g _ hg; exact hg
  | cons rq rest ih =>
    intro g hl hg
    have hrest : ∀ x ∈ rest, x ∈ Vendor host := fun x hx => hl x (List.mem_cons_of_mem _ hx)
    simp only [groupCatalog]
    split
    · rename_i hc
      have hfresh : rq.MetricsRoot ∉ g.requests := by
        simp only [contains, Bool.and_eq_true, beq_iff_eq, decide_eq_false_iff_not] at hc
        exact hc.2
      apply ih _ hrest
      obtain ⟨h1, h2, h3⟩ := hg
      refine ⟨?_, ?_, ?_⟩
      · intro h
        by_cases hh : h = host
        · subst hh
          simp only [Function.update_same, List.map_append, List.map_cons, List.map_nil, h1 h]
        · simp only [Function.update_noteq hh, h1 h]
      · intro h d hd
        by_cases hh : h = host
        · subst hh
          simp only [Function.update_same, List.mem_append, List.mem_singleton] at hd
          rcases hd with hd | rfl
          · exact ⟨List.mem_append_left _ (h2 h d hd).1, (h2 h d hd).2⟩
          · exact ⟨List.mem_append_right _ (List.mem_singleton_self _),
              hl _ (List.mem_cons_self _ _)⟩
        · simp only [Function.update_noteq hh] at hd
          exact ⟨List.mem_append_left _ (h2 h d hd).1, (h2 h d hd).2⟩
      · intro h
        by_cases hh : h = host
        · subst hh
          simp only [Function.update_same, List.map_append, List.map_cons, List.map_nil]
          refine List.Nodup.append (h3 h) (List.nodup_singleton _) ?_
          intro x hx hx2
          obtain ⟨d, hd, rfl⟩ := List.mem_map.1 hx
          rw [List.mem_singleton] at hx2
          exact hfresh (hx2 ▸ (h2 h d hd).1)
        · simp only [Function.update_noteq hh]
          exact h3 h
    · exact ih _ hrest hg

theorem groupRequests_inv (Vendor : String → List RequestDescription) :
    ∀ (mts : List PluginMetricType) (g g' : Grouping), GroupingInv Vendor g →
      groupRequests Vendor mts g = some g' → GroupingInv Vendor g' := by
  intro mts
  induction mts with
  | nil =>
    intro g g' hg h
    rw [← Option.some.inj h]
    exact hg
  | cons mt rest ih =>
    intro g g' hg h
    simp only [groupRequests] at h
    split at h
    · rename_i ns host _ _
      refine ih _ g' ?_ h
      apply groupCatalog_inv Vendor ns host _ _ (fun rq hrq => hrq)
      split
      · obtain ⟨h1, h2, h3⟩ := hg
        refine ⟨?_, ?_, ?_⟩
        · intro x
          by_cases hx : x = host
          · subst hx
            simp only [Function.update_same, List.map_nil]
          · simp only [Function.update_noteq hx, h1 x]
        · intro x d hd
          by_cases hx : x = host
          · subst hx
            simp only [Function.update_same, List.not_mem_nil] at hd
          · simp only [Function.update_noteq hx] at hd
            exact h2 x d hd
        · intro x
          by_cases hx : x = host
          · subst hx
            simp only [Function.update_same, List.map_nil, List.nodup_nil]
          · simp only [Function.update_noteq hx]
            exact h3 x
      · exact hg
    · exact Option.noConfusion h

theorem grouping_inv (Vendor : String → List RequestDescription) (mts : List PluginMetricType)
    (g : Grouping) (h : grouping Vendor mts = some g) : GroupingInv Vendor g := by
  refine groupRequests_inv Vendor mts _ g ?_ h
  refine ⟨fun _ => rfl, fun _ d hd => ?_, fun _ => List.nodup_nil⟩
  simp only [List.not_mem_nil] at hd

theorem groupRequests_defined (Vendor : String → List RequestDescription) :
    ∀ (mts : List PluginMetricType) (g : Grouping),
      (∀ mt ∈ mts, 3 ≤ mt.Namespace_.length) → ∃ g', groupRequests Vendor mts g = some g' := by
  intro mts
  induction mts with
  | nil => intro g _; exact ⟨g, rfl⟩
  | cons mt rest ih =>
    intro g hlen
    have h3 : 3 ≤ mt.Namespace_.length := hlen mt (List.mem_cons_self _ _)
    have hp : parseName mt.Namespace_ =
        some (strings.Join (mt.Namespace_.drop namespacePrefix.length) "/") := by
      have : namespacePrefix.length ≤ mt.Namespace_.length := by
        show 2 ≤ mt.Namespace_.length
        omega
      simp only [parseName, this, if_true]
    have h2 : mt.Namespace_[2]? = some (mt.Namespace_[2]) := List.getElem?_eq_getElem (by omega)
    simp only [groupRequests, hp, h2]
    exact ih _ (fun x hx => hlen x (List.mem_cons_of_mem _ hx))

theorem grouping_defined (Vendor : String → List RequestDescription)
    (mts : List PluginMetricType) (hlen : ∀ mt ∈ mts, 3 ≤ mt.Namespace_.length) :
    ∃ g, grouping Vendor mts = some g :=
  groupRequests_defined Vendor mts _ hlen

theorem decodeResponses_eq_paired (host : String) (descs : List RequestDescription) :
    ∀ (resps : List IpmiResponse) (i : Nat) (cached : MetricMap),
      i + resps.length ≤ descs.length →
      decodeResponses host descs resps i cached =
        decodePaired host ((descs.drop i).zip resps) cached := by
  intro resps
  induction resps with
  | nil => intro i cached _; simp [decodeResponses, decodePaired]
  | cons resp rest ih =>
    intro i cached hlen
    have hi : i < descs.length := by
      simp only [List.length_cons] at hlen
      omega
    have hd : descs.drop i = descs[i] :: descs.drop (i + 1) := List.drop_eq_getElem_cons hi
    rw [hd]
    simp only [decodeResponses, List.getElem?_eq_getElem hi, List.zip_cons_cons, decodePaired]
    cases decodeStep descs[i].Format resp with
    | none => rfl
    | some submetrics =>
      exact ih (i + 1) _ (by simp only [List.length_cons] at hlen; omega)

/-! ## Claims on the grouping loop -/

/-- Claim C13: for requested metrics whose namespaces have the three segments the loop reads,
the grouping loop ends, and for every host the batch it has built is the list of requests of
descriptors taken from that host's catalog, no two of them with the same metrics root, hence
no descriptor twice. -/
theorem batch_roots_distinct (Vendor : String → List RequestDescription)
    (mts : List PluginMetricType) (hlen : ∀ mt ∈ mts, 3 ≤ mt.Namespace_.length) :
    ∃ g, grouping Vendor mts = some g ∧ ∀ host : String,
      g.requestList host = (g.requestDescList host).map (fun d => d.Request) ∧
      (∀ d ∈ g.requestDescList host, d ∈ Vendor host) ∧
      ((g.requestDescList host).map (fun d => d.MetricsRoot)).Nodup ∧
      (g.requestDescList host).Nodup := by
  obtain ⟨g, hg⟩ := grouping_defined Vendor mts hlen
  obtain ⟨h1, h2, h3⟩ := grouping_inv Vendor mts g hg
  exact ⟨g, hg, fun host => ⟨h1 host, fun d hd => (h2 host d hd).2, h3 host,
    List.Nodup.of_map _ (h3 host)⟩⟩

/-- Witness of claim C13: two requested metrics of one command; its request is submitted
once. -/
theorem batch_roots_distinct_witness :
    ∃ g, grouping (fun _ => [⟨⟨[1]⟩, "power", ParserFormat.FormatNodeManager⟩])
        [⟨["intel", "node_manager", "h", "power", "min"], "h", 0, none, []⟩,
         ⟨["intel", "node_manager", "h", "power", "max"], "h", 0, none, []⟩] = some g ∧
      g.requestList "h" = (g.requestDescList "h").map (fun d => d.Request) ∧
      ((g.requestDescList "h").map (fun d => d.MetricsRoot)).Nodup := by
  obtain ⟨g, hg, hall⟩ := batch_roots_distinct
    (fun _ => [⟨⟨[1]⟩, "power", ParserFormat.FormatNodeManager⟩])
    [⟨["intel", "node_manager", "h", "power", "min"], "h", 0, none, []⟩,
     ⟨["intel", "node_manager", "h", "power", "max"], "h", 0, none, []⟩] (by decide)
  exact ⟨g, hg, (hall "h").1, (hall "h").2.2.1⟩

/-- Claim C16: after the grouping loop, for every host the requests and the descriptors have
the same length and agree position by position; hence, when as many responses come back as
requests were submitted, the decode loop never indexes the descriptors out of range and
decodes response `i` with the format and metrics root of the descriptor at position `i`. -/
theorem requests_match_descriptors (Vendor : String → List RequestDescription)
    (mts : List PluginMetricType) (g : Grouping) (hg : grouping Vendor mts = some g)
    (host : String) :
    (g.requestList host).length = (g.requestDescList host).length ∧
    (∀ i : Nat, (g.requestList host)[i]? =
      ((g.requestDescList host)[i]?).map (fun d => d.Request)) ∧
    (∀ (resps : List IpmiResponse) (cached : MetricMap),
      resps.length = (g.requestList host).length →
      decodeResponses host (g.requestDescList host) resps 0 cached =
        decodePaired host ((g.requestDescList host).zip resps) cached) := by
  obtain ⟨h1, _, _⟩ := grouping_inv Vendor mts g hg
  have hl : (g.requestList host).length = (g.requestDescList host).length := by
    rw [h1 host, List.length_map]
  refine ⟨hl, fun i => ?_, fun resps cached hr => ?_⟩
  · rw [h1 host, List.getElem?_map]
  · have := decodeResponses_eq_paired host (g.requestDescList host) resps 0 cached (by omega)
    simpa using this

/-- Witness of claim C16: one requested metric of one command, and one response. -/
theorem requests_match_descriptors_witness :
    ∃ g, grouping (fun _ => [⟨⟨[1]⟩, "power", ParserFormat.FormatNodeManager⟩])
        [⟨["intel", "node_manager", "h", "power", "min"], "h", 0, none, []⟩] = some g ∧
      (g.requestList "h").length = (g.requestDescList "h").length := by
  obtain ⟨g, hg⟩ := grouping_defined
    (fun _ => [⟨⟨[1]⟩, "power", ParserFormat.FormatNodeManager⟩])
    [⟨["intel", "node_manager", "h", "power", "min"], "h", 0, none, []⟩] (by decide)
  exact ⟨g, hg, (requests_match_descriptors _ _ g hg "h").1⟩

/-- Claim C18: there are a catalog and one requested metric for which the grouping loop puts
into the host's batch a command whose metrics root is not the root of the requested metric and
is not a segment of its namespace, but occurs inside the requested path: the catalog of host
`h` holds the roots `temp` and `temperature`, and the metric `h/temperature/cpu/cpu0` selects
both commands. -/
theorem substring_selection_exists :
    ∃ (Vendor : String → List RequestDescription) (host : String)
      (own other : RequestDescription) (name : String),
      own ∈ Vendor host ∧ other ∈ Vendor host ∧ name ∈ own.Format.GetMetrics ∧
      other.MetricsRoot ≠ own.MetricsRoot ∧
      other.MetricsRoot ∉ makeName (extendPath (extendPath host own.MetricsRoot) name) ∧
      strings.Contains (extendPath (extendPath host own.MetricsRoot) name)
        other.MetricsRoot = true ∧
      (grouping Vendor
        [⟨makeName (extendPath (extendPath host own.MetricsRoot) name), host, 0, none, []⟩]).map
        (fun g => g.requestList host) = some [other.Request, own.Request] :=
  ⟨fun _ => [⟨⟨[1]⟩, "temp", ParserFormat.FormatSR⟩,
      ⟨⟨[2]⟩, "temperature", ParserFormat.FormatTemp⟩],
    "h", ⟨⟨[2]⟩, "temperature", ParserFormat.FormatTemp⟩, ⟨⟨[1]⟩, "temp", ParserFormat.FormatSR⟩,
    "cpu/cpu0", by decide⟩

/-! ## Discovery (`GetMetricTypes`) -/

theorem foldl_append_map {α β : Type} (f : α → β) :
    ∀ (l : List α) (acc : List β), l.foldl (fun acc x => acc ++ [f x]) acc = acc ++ l.map f := by
  intro l
  induction l with
  | nil => intro acc; simp
  | cons x rest ih => intro acc; simp [ih]

theorem foldl_append_flatMap {α β : Type} (f : α → List β) :
    ∀ (l : List α) (acc : List β),
      l.foldl (fun acc x => acc ++ f x) acc = acc ++ l.flatMap f := by
  intro l
  induction l with
  | nil => intro acc; simp
  | cons x rest ih => intro acc; simp [ih]

theorem metricTypes_eq (Hosts : List String) (Vendor : String → List RequestDescription) :
    metricTypes Hosts Vendor =
      Hosts.flatMap (fun host => (Vendor host).flatMap (fun req =>
        req.Format.GetMetrics.map (fun metric =>
          ({ Namespace_ := makeName (extendPath (extendPath host req.MetricsRoot) metric),
             Source_ := host, Timestamp_ := 0, Data_ := none, Config_ := [] } :
            PluginMetricType)))) := by
  unfold metricTypes
  simp only [foldl_append_map, foldl_append_flatMap, List.nil_append]

theorem extendPath_twice (host root name : String) :
    extendPath (extendPath host root) name =
      host ++ (if root = "" then "" else "/" ++ root) ++
        (if name = "" then "" else "/" ++ name) := by
  by_cases hr : root = "" <;> by_cases hn : name = "" <;>
    simp [extendPath, hr, hn, String.append_assoc]

/-- A collector whose layer is nil reports a configuration whose mode is none of the three
known ones: the error is returned with no metric, and `Initialized` is left false. -/
theorem GetMetricTypes_wrong_mode_fresh (W : Env) (ic : IpmiCollector) (cfg : ConfigTable)
    (mode channel slave user pass : String) (hnil : ic.IpmiLayer = none)
    (hm : getMode cfg = some mode) (hc : getChannel cfg = some channel)
    (hs : getSlave cfg = some slave) (hu : getUser cfg = some user)
    (hp : getPass cfg = some pass) (h1 : mode ≠ "legacy_inband") (h2 : mode ≠ "oob")
    (h3 : mode ≠ "legacy_inband_openipmi") :
    ic.GetMetricTypes W cfg =
      some ({ ic with Mode := mode, Initialized := false }, [],
        some "Wrong mode configuration") := by
  simp [IpmiCollector.GetMetricTypes, IpmiCollector.construct, hm, hc, hs, hu, hp, h1, h2, h3,
    hnil]

/-! ## The order in which `range submetrics` visits the decoded map does not matter -/

theorem extendPath_injective (p k1 k2 : String) (h : extendPath p k1 = extendPath p k2) :
    k1 = k2 := by
  have hlen : ∀ k : String, k ≠ "" → (extendPath p k).length = p.length + 1 + k.length := by
    intro k hk
    simp only [extendPath, hk, if_false, String.length_append]
    rfl
  by_cases h1 : k1 = "" <;> by_cases h2 : k2 = ""
  · rw [h1, h2]
  · have hl := congrArg String.length h
    rw [hlen k2 h2] at hl
    simp only [extendPath, h1, if_true] at hl
    omega
  · have hl := congrArg String.length h
    rw [hlen k1 h1] at hl
    simp only [extendPath, h2, if_true] at hl
    omega
  · simp only [extendPath, h1, h2, if_false] at h
    have hd := congrArg String.data h
    simp only [String.data_append, List.append_assoc] at hd
    exact String.ext (List.append_cancel_left (List.append_cancel_left hd))

theorem cacheSubmetrics_congr (host root : String) :
    ∀ (submetrics cached cached' : MetricMap),
      (∀ k, MetricMap.find cached k = MetricMap.find cached' k) →
      ∀ k, MetricMap.find (cacheSubmetrics host root submetrics cached) k =
        MetricMap.find (cacheSubmetrics host root submetrics cached') k := by
  intro submetrics
  induction submetrics with
  | nil => intro cached cached' h; exact h
  | cons e rest ih =>
    intro cached cached' h
    simp only [cacheSubmetrics, List.foldl_cons]
    apply ih
    intro k
    rw [find_store, find_store, h k]

/-- Go visits the entries of `submetrics` in an unspecified order; as its keys are distinct,
the cache has the same lookups whichever order is taken. -/
theorem cacheSubmetrics_perm (host root : String) (submetrics submetrics' : MetricMap)
    (hp : submetrics.Perm submetrics') :
    (MetricMap.keys submetrics).Nodup →
      ∀ cached k, MetricMap.find (cacheSubmetrics host root submetrics cached) k =
        MetricMap.find (cacheSubmetrics host root submetrics' cached) k := by
  induction hp with
  | nil => intro _ cached k; rfl
  | cons e _ ih =>
    intro hnd cached k
    simp only [cacheSubmetrics, List.foldl_cons]
    exact ih (List.nodup_cons.1 hnd).2 _ k
  | swap a b l =>
    intro hnd cached k
    have hne : a.1 ≠ b.1 := by
      intro h
      have h1 := (List.nodup_cons.1 hnd).1
      apply h1
      simp [MetricMap.keys, h]
    have hpath : extendPath (extendPath host root) a.1 ≠ extendPath (extendPath host root) b.1 :=
      fun h => hne (extendPath_injective _ _ _ h)
    simp only [cacheSubmetrics, List.foldl_cons]
    apply cacheSubmetrics_congr
    intro k'
    simp only [find_store]
    by_cases h1 : extendPath (extendPath host root) a.1 = k'
    · have h2 : ¬ extendPath (extendPath host root) b.1 = k' := fun h => hpath (h1.trans h.symm)
      simp [h1, h2]
    · simp [h1]
  | trans hp1 _ ih1 ih2 =>
    intro hnd cached k
    have hnd2 : (MetricMap.keys _).Nodup := (hp1.map Prod.fst).nodup_iff.1 hnd
    exact (ih1 hnd cached k).trans (ih2 hnd2 cached k)

/-! ## Claims on the collector -/

/-- Counterexample to claim C11 as stated: with host `h` and a catalog whose one descriptor has
the empty metrics root and the empty metric name, the namespace returned is
`intel, node_manager, h`, while the split of `h/` + root has a fourth, empty segment. -/
theorem GetMetricTypes_lists_catalog_counterexample :
    (New.GetMetricTypes
      { sampleEnv with
        GetPlatformCapabilities := fun _ _ _ => [⟨⟨[1]⟩, "", ParserFormat.FormatSR⟩] }
      [("mode", ConfigValue.ConfigValueStr "legacy_inband")]).map (fun r => r.2) =
      some ([⟨["intel", "node_manager", "h"], "h", 0, none, []⟩], none) ∧
    ["intel", "node_manager"] ++ strings.Split (claimedPath "h" "" "") '/' =
      ["intel", "node_manager", "h", ""] := by
  decide

/-- Claim C11, amended: when `construct` leaves the collector with an execution layer, host
list `H` and catalog `V`, `GetMetricTypes` returns no error and, in order over the hosts of
`H`, the descriptors of `V[host]` and the names of the descriptor's `GetMetrics()`, one metric
per (host, descriptor, name) whose source is the host and whose namespace is
`intel, node_manager` followed by the `/`-split of the host, then `/` and the metrics root
unless the root is empty, then `/` and the name unless the name is empty; their number is the
sum of `len(GetMetrics())` over all descriptors of all hosts. -/
theorem GetMetricTypes_lists_catalog (W : Env) (ic ic' : IpmiCollector) (cfg : ConfigTable)
    (hc : ic.construct W cfg = some ic') (hl : ic'.IpmiLayer ≠ none) :
    ∃ (after : IpmiCollector) (mts : List PluginMetricType),
      ic.GetMetricTypes W cfg = some (after, mts, none) ∧
      after.Initialized = true ∧
      mts = ic'.Hosts.flatMap (fun host => (ic'.Vendor host).flatMap (fun req =>
        req.Format.GetMetrics.map (fun name =>
          ({ Namespace_ := ["intel", "node_manager"] ++
               strings.Split (host ++ (if req.MetricsRoot = "" then "" else "/" ++ req.MetricsRoot)
                 ++ (if name = "" then "" else "/" ++ name)) '/',
             Source_ := host, Timestamp_ := 0, Data_ := none, Config_ := [] } :
            PluginMetricType)))) ∧
      mts.length = (ic'.Hosts.map (fun host =>
        ((ic'.Vendor host).map (fun req => req.Format.GetMetrics.length)).sum)).sum := by
  have hsome : ic'.IpmiLayer.isNone = false := by
    cases hx : ic'.IpmiLayer with
    | none => exact absurd hx hl
    | some al => rfl
  refine ⟨{ ic' with Initialized := true }, metricTypes ic'.Hosts ic'.Vendor, ?_, rfl, ?_, ?_⟩
  · simp [IpmiCollector.GetMetricTypes, hc, hsome]
  · rw [metricTypes_eq]
    simp only [makeName, namespacePrefix, extendPath_twice]
  · rw [metricTypes_eq]
    simp only [List.length_flatMap, List.length_map, Function.comp_def]

/-- Witness of claim C11, amended: a fresh collector configured for the local tool in the
sample environment lists the one metric of the one command of host `h`. -/
theorem GetMetricTypes_lists_catalog_witness :
    ∃ (after : IpmiCollector) (mts : List PluginMetricType),
      New.GetMetricTypes sampleEnv [("mode", ConfigValue.ConfigValueStr "legacy_inband")] =
        some (after, mts, none) ∧
      mts.length = 1 := by
  obtain ⟨after, mts, h, _, _, hlen⟩ := GetMetricTypes_lists_catalog sampleEnv New
    (IpmiCollector.install sampleEnv { New with Mode := "legacy_inband" }
      (IpmiAL.LinuxInBandIpmitool "ipmitool" "0x00" "0x00") ["h"])
    [("mode", ConfigValue.ConfigValueStr "legacy_inband")] rfl
    (fun h => Option.noConfusion h)
  exact ⟨after, mts, h, hlen⟩

/-- Claim C12, evaluated at two hosts with the same catalog: a collector configured for the
remote mode discovers the metric `sensor` of hosts `a` and `b`, and collects both; every
response carries the reading 7. Host `a` gets the batch of one request and the value 7; host
`b` gets an empty batch, because the root `sensor` is already recorded for host `a`, and its
metric is returned with the value 0. -/
theorem CollectMetrics_two_hosts_example :
    ((New.GetMetricTypes sampleEnv
        [("mode", ConfigValue.ConfigValueStr "oob"),
         ("hosts", ConfigValue.ConfigValueStr "hosts")]).bind
      (fun r => (grouping r.1.Vendor r.2.1).map
        (fun g => (g.requestList "a", g.requestList "b")))) = some ([⟨[1]⟩], []) ∧
    ((New.GetMetricTypes sampleEnv
        [("mode", ConfigValue.ConfigValueStr "oob"),
         ("hosts", ConfigValue.ConfigValueStr "hosts")]).bind
      (fun r => (r.1.CollectMetrics sampleEnv r.2.1).map (fun c => c.2.1))) =
      some [⟨["intel", "node_manager", "a", "sensor"], "a", 42, some 7, []⟩,
            ⟨["intel", "node_manager", "b", "sensor"], "b", 42, some 0, []⟩] := by
  decide

/-- Claim C14, evaluated at a collector initialized before: after a discovery with the mode
`legacy_inband`, a discovery with the unknown mode `bogus` returns the metric of the old
catalog with no error and leaves `Initialized` true. -/
theorem GetMetricTypes_wrong_mode_example :
    ((New.GetMetricTypes sampleEnv [("mode", ConfigValue.ConfigValueStr "legacy_inband")]).bind
      (fun r => (r.1.GetMetricTypes sampleEnv [("mode", ConfigValue.ConfigValueStr "bogus")]).map
        (fun r' => (r'.1.Initialized, r'.2.1, r'.2.2)))) =
      some (true, [⟨["intel", "node_manager", "h", "sensor"], "h", 0, none, []⟩], none) := by
  decide

end Ipmi
